import Mathlib

/-!
# Verification of the module loading and resolution core (`src/ModuleLoader.ts`)

This file is a shallow embedding of `src/ModuleLoader.ts` of the repository
(a JavaScript/ES-module bundler's module loading core), together with proofs
about its claimed properties.

Modelling conventions:
* JavaScript objects with identity (`Module`, `ExternalModule`) live in a heap
  (`LoaderState.heap`); a "reference" to an object is its heap index (serial).
  Two references denote the same instance iff the serials are equal.
* The registry `modulesById` (a JS `Map`) is an association list mapping an id
  to the serial of its record; `Map.set` on an existing key updates in place,
  preserving iteration order, which `aset` mirrors.
* Asynchronous methods become state-passing functions `LoaderM α`
  (`LoaderState → Except Err (α × LoaderState)`); a thrown fatal error is the
  `Except.error` case.  The concurrent `Promise.all` fan-outs are sequentialised
  in program order; the one place where the suspension structure itself is
  load-bearing (the `resolvedIds` memo of lines 318-320 / 541-543) is
  additionally given a small-step interleaving model (`memoTaskStep` below).
* External collaborators that are not part of the given source (the plugin
  driver, `utils/resolveId`, `utils/fs.readFile`, `utils/transform`,
  `utils/path`, `utils/relativeId`, `Module.setSource`) are oracles collected
  in `Env`, or definitions marked `Modelled from the spec:`.
* Calls of the load hook / filesystem and of the transformer are recorded in
  `loadLog` / `transformLog` so that "is invoked at most once" is statable.
* The recursive graph walk (`fetchModule` → `fetchAllDependencies` →
  `fetchResolvedDependency` → `fetchModule`) is made total with a fuel
  parameter; `Err.outOfFuel` is an artefact of the embedding, never of the
  program.
-/

namespace ML

/-! ## Basic data -/
/-- Fatal error codes of `utils/error` raised by the loader (spec section 7). -/
inductive ErrCode
  | badLoader
  | cannotAssignModuleToChunk
  | entryCannotBeExternal
  | internalIdCannotBeExternal
  | unresolvedEntry
  | unresolvedImport
  | loadFailure
  | outOfFuel
  | typeError
  deriving DecidableEq, Repr

/-- Non-fatal warning codes routed to `graph.warn` (spec section 7). -/
inductive WarnCode
  | externalSyntheticExports
  | invalidOption
  | namespaceConflict
  | unresolvedImportTreatedAsExternal
  deriving DecidableEq, Repr

/-- A fatal error: code plus the pieces of context the `err*` constructor
receives (ids, aliases, messages). -/
structure Err where
  code : ErrCode
  info : List String := []
  deriving DecidableEq, Repr

/-- A warning: code plus context. -/
structure Warning where
  code : WarnCode
  info : List String := []
  deriving DecidableEq, Repr

/-- `ResolvedId` of `rollup/types`: the canonical record for a resolved
reference (spec section 3). -/
structure ResolvedId where
  external : Bool
  id : String
  moduleSideEffects : Bool
  syntheticNamedExports : Bool
  deriving DecidableEq, Repr

/-- The object form a `resolveId`-shaped hook may return.  Optional fields are
`none` when the property is absent (or not a boolean, which the source treats
the same via its `typeof` checks). -/
structure PartialResolvedId where
  id : String
  external : Option Bool := none
  moduleSideEffects : Option Bool := none
  syntheticNamedExports : Option Bool := none
  deriving DecidableEq, Repr

/-- `ResolveIdResult` of `rollup/types`:
`string | {…} | false | null | undefined`.  `nullish` covers both `null` and
`undefined` (the source only ever distinguishes them by truthiness or by
`== null`). -/
inductive ResolveIdResult
  | nullish
  | fls
  | str (s : String)
  | obj (o : PartialResolvedId)
  deriving DecidableEq, Repr

/-- JavaScript truthiness of a `ResolveIdResult`: objects are truthy, `false`
and nullish are falsy, a string is truthy iff nonempty. -/
def ResolveIdResult.isTruthy : ResolveIdResult → Bool
  | .nullish => false
  | .fls => false
  | .str s => s ≠ ""
  | .obj _ => true

/-- The argument of a dynamic import: a string literal or an opaque AST node. -/
inductive DynArg
  | lit (s : String)
  | node
  deriving DecidableEq, Repr

/-- The `resolution` slot of a dynamic import record: a plain string returned
by the hook, or a reference (serial) to the fetched module. -/
inductive DynRes
  | str (s : String)
  | mod (serial : Nat)
  deriving DecidableEq, Repr

/-- One entry of `module.dynamicImports`. -/
structure DynamicImport where
  argument : DynArg
  resolution : Option DynRes := none
  deriving DecidableEq, Repr

/-- An internal `Module` (class `Module`, fields per spec section 3 and their
uses in `ModuleLoader.ts`).  Collection-valued fields are lists in insertion
order; `exportsAll` and `resolvedIds` are association lists. -/
structure Module where
  id : String
  moduleSideEffects : Bool
  syntheticNamedExports : Bool
  isEntryPoint : Bool
  isUserDefinedEntryPoint : Bool := false
  manualChunkAlias : Option String := none
  chunkName : Option String := none
  chunkFileNames : List String := []
  userChunkNames : List String := []
  sources : List String := []
  dynamicImports : List DynamicImport := []
  exportAllSources : List String := []
  exports : List String := []
  exportsAll : List (String × String) := []
  resolvedIds : List (String × ResolvedId) := []
  importers : List String := []
  dynamicImporters : List String := []
  deriving DecidableEq, Repr

/-- An `ExternalModule`: id and side-effect flag (spec section 3); the loader
also pushes onto its `importers` / `dynamicImporters` (lines 322, 340). -/
structure ExternalModule where
  id : String
  moduleSideEffects : Bool
  importers : List String := []
  dynamicImporters : List String := []
  deriving DecidableEq, Repr

/-- A heap record: `InternalModule | ExternalModule` (the two classes of the
source, distinguished where the source uses `instanceof`). -/
inductive ModuleRecord
  | internal (m : Module)
  | external (e : ExternalModule)
  deriving DecidableEq, Repr

/-- The `id` shared by both record kinds. -/
def ModuleRecord.id : ModuleRecord → String
  | .internal m => m.id
  | .external e => e.id

/-- Modelled from the spec: the parsed module body produced by the transformer
collaborator (`utils/transform` and the `Module` parser are not part of the
given source).  Per spec section 3, parsing yields the static import
specifiers, the dynamic import arguments, the `export * from` sources and the
declared export names. -/
structure ParsedBody where
  sources : List String := []
  dynamicImports : List DynArg := []
  exportAllSources : List String := []
  exports : List String := []
  deriving DecidableEq, Repr

/-- A source description as produced by the `load` hook's object form.
`code = none` models a non-string `code` property (fatal `BAD_LOADER`). -/
structure SourceDescription where
  code : Option String := none
  moduleSideEffects : Option Bool := none
  syntheticNamedExports : Option Bool := none
  deriving DecidableEq, Repr

/-- What the `load` hook or the filesystem returns: a plain string or an
object form. -/
inductive LoadResult
  | str (code : String)
  | obj (desc : SourceDescription)
  deriving DecidableEq, Repr

/-- A cached module record from a prior build (`graph.cachedModules`),
as consumed by lines 262-272. -/
structure CachedModule where
  customTransformCache : Bool
  originalCode : String
  transformFiles : List String := []
  body : ParsedBody
  deriving DecidableEq, Repr

/-- `UnresolvedModule` of `ModuleLoader.ts` (lines 35-40). -/
structure UnresolvedModule where
  fileName : Option String := none
  id : String
  importer : Option String := none
  name : Option String := none
  deriving DecidableEq, Repr

/-! ## Association list helpers (JS `Map` / plain-object semantics) -/
/-- First-match lookup in an association list (JS `Map.get` / property read;
keys are unique in all states the loader builds). -/
def alookup {α : Type} : List (String × α) → String → Option α
  | [], _ => none
  | (k, v) :: rest, key => if k = key then some v else alookup rest key

/-- `Map.set` / property write: update the first occurrence in place
(preserving iteration order, as JS does), else append. -/
def aset {α : Type} : List (String × α) → String → α → List (String × α)
  | [], key, v => [(key, v)]
  | (k, w) :: rest, key, v =>
      if k = key then (k, v) :: rest else (k, w) :: aset rest key v

/-- JS `Set.add`: append if absent. -/
def setAdd (l : List String) (x : String) : List String :=
  if l.contains x then l else l ++ [x]

/-- Character-list prefix test (JS `String.prototype.startsWith`). -/
def charsStartWith : List Char → List Char → Bool
  | _, [] => true
  | [], _ :: _ => false
  | c :: cs, d :: ds => c = d && charsStartWith cs ds

/-- Whether a specifier begins with the NUL byte (a synthetic id,
`id.startsWith('\0')` in the source). -/
def startsWithNull (s : String) : Bool :=
  charsStartWith s.data ['\x00']

/-! ## Loader state -/
/-- The mutable state of a `ModuleLoader` run, together with the observation
logs used to state "is invoked at most once" properties.
* `heap` is the object heap: serial `i` is the record created `i`-th.
* `modulesById` is the registry `id → serial`.
* `indexedEntryModules` is the list of `(index, module-serial)` entry records.
* `manualChunkModules` maps a chunk alias to the serials pushed for it.
* `warnings` collects `graph.warn` calls in order, `watchFiles` the ids marked
  watched, `loadLog` the ids for which the load hook / filesystem ran,
  `transformLog` the ids passed to the transformer, and `emitLog` the files
  re-emitted from the cache. -/
structure LoaderState where
  heap : List ModuleRecord := []
  modulesById : List (String × Nat) := []
  indexedEntryModules : List (Nat × Nat) := []
  manualChunkModules : List (String × List Nat) := []
  nextEntryModuleIndex : Nat := 0
  warnings : List Warning := []
  watchFiles : List String := []
  loadLog : List String := []
  transformLog : List String := []
  emitLog : List String := []
  deriving DecidableEq, Repr

/-- The initial state of a fresh loader. -/
def initState : LoaderState := {}

/-- The compiled configuration a `ModuleLoader` instance carries: the
`isExternal` matcher, the side-effect policy and `preserveSymlinks`
(constructor, lines 116-131). -/
structure LoaderConfig where
  isExternal : String → Option String → Bool → Bool
  hasModuleSideEffects : String → Bool → Bool
  preserveSymlinks : Bool

/-- The oracles for the collaborators outside the given source file: the
combined plugin/built-in resolver `utils/resolveId`, the
`resolveDynamicImport` hook, the `load` hook, the filesystem, the transformer,
the prior-build cache, and the pure path utilities.  All are pure functions:
the host environment is deterministic for a run. -/
structure Env where
  utilResolveId : String → Option String → Bool → Option Nat → ResolveIdResult
  resolveDynamicImportHook : DynArg → String → ResolveIdResult
  loadHook : String → Except String (Option LoadResult)
  readFile : String → Except String String
  transform : String → SourceDescription → ParsedBody
  cachedModules : String → Option CachedModule
  isRelative : String → Bool
  resolvePath : List String → String
  relativeId : String → String

/-! ## The loader monad -/
/-- State-and-error monad of the loader: a suspended computation from a state
to an error or a value with the updated state. -/
def LoaderM (α : Type) : Type :=
  LoaderState → Except Err (α × LoaderState)

namespace LoaderM

def pure {α : Type} (a : α) : LoaderM α := fun s => .ok (a, s)

def bind {α β : Type} (m : LoaderM α) (f : α → LoaderM β) : LoaderM β := fun s =>
  match m s with
  | .ok (a, s') => f a s'
  | .error e => .error e

end LoaderM

instance : Monad LoaderM where
  pure := LoaderM.pure
  bind := LoaderM.bind

/-- Throw a fatal error (`error(errX(...))` in the source). -/
def throwE {α : Type} (e : Err) : LoaderM α := fun _ => .error e

/-- Read the state. -/
def getS : LoaderM LoaderState := fun s => .ok (s, s)

/-- Update the state. -/
def modifyS (f : LoaderState → LoaderState) : LoaderM Unit := fun s => .ok ((), f s)

/-- `graph.warn`: append a warning. -/
def warn (w : Warning) : LoaderM Unit :=
  modifyS fun s => { s with warnings := s.warnings ++ [w] }

/-- Read the heap record behind a reference; a dangling reference is a JS
`TypeError` (never reachable from the loader's own states). -/
def getRecord (serial : Nat) : LoaderM ModuleRecord := fun s =>
  match s.heap[serial]? with
  | some r => .ok (r, s)
  | none => .error ⟨.typeError, []⟩

/-- Read an internal module behind a reference (`instanceof Module` assumed). -/
def getInternalM (serial : Nat) : LoaderM Module := fun s =>
  match s.heap[serial]? with
  | some (.internal m) => .ok (m, s)
  | _ => .error ⟨.typeError, []⟩

/-- Overwrite the heap record behind a reference. -/
def setRecord (serial : Nat) (r : ModuleRecord) : LoaderM Unit :=
  modifyS fun s => { s with heap := s.heap.set serial r }

/-- Mutate an internal module in place. -/
def updInternal (serial : Nat) (f : Module → Module) : LoaderM Unit := do
  let m ← getInternalM serial
  setRecord serial (.internal (f m))

/-- Mutate a heap record in place (either kind). -/
def updRecord (serial : Nat) (f : ModuleRecord → ModuleRecord) : LoaderM Unit := do
  let r ← getRecord serial
  setRecord serial (f r)

/-- Allocate a fresh record and point the registry entry for `id` at it
(`new Module(...)` / `new ExternalModule(...)` followed by
`modulesById.set(id, …)`).  Returns the new reference. -/
def registerModule (id : String) (r : ModuleRecord) : LoaderM Nat := fun s =>
  .ok (s.heap.length,
    { s with
      heap := s.heap ++ [r]
      modulesById := aset s.modulesById id s.heap.length })

/-- The internal module registered under an id, if any (the
`existingModule instanceof Module` test of line 355 combined with the
registry lookup of line 354). -/
def lookupInternal (s : LoaderState) (id : String) : Option (Nat × Module) :=
  match alookup s.modulesById id with
  | some serial =>
      match s.heap[serial]? with
      | some (.internal m) => some (serial, m)
      | _ => none
  | none => none

/-! ## Option compilers (lines 42-106)
`getIdMatcher` and `getHasModuleSideEffects` compile user configuration into
predicates.  User callables are modelled as Lean functions returning
`Option Bool` (`boolean | null | undefined`); a `RegExp` becomes an opaque
decidable predicate. -/
/-- The configuration value accepted by `getIdMatcher`:
`boolean | (string | RegExp)[] | function`.  `fls` stands for any falsy
value (`false`, `null`, `undefined`); a list is always truthy in JS, even when
empty, so it is a separate constructor.  `A` is the type of the extra
arguments forwarded to a callable. -/
inductive IdMatcherOption (A : Type)
  | tru
  | fls
  | list (ids : List String) (matchers : List (String → Bool))
  | func (f : String → A → Option Bool)

/-- `getIdMatcher` (lines 50-75): compile an option into a uniform predicate.
For a callable the result is `(!id.startsWith('\0') && option(id, ...args)) || false`:
synthetic ids short-circuit to `false` before the callable is consulted, and
a nullish return is coerced to `false`.  For a list, membership in the literal
set or any pattern match. -/
def getIdMatcher {A : Type} (opt : IdMatcherOption A) : String → A → Bool :=
  match opt with
  | .tru => fun _ _ => true
  | .func f => fun id args => !startsWithNull id && (f id args == some true)
  | .list ids matchers => fun id _ => ids.contains id || matchers.any (fun m => m id)
  | .fls => fun _ _ => false

/-- The configuration value accepted for `treeshake.moduleSideEffects`:
`boolean | "no-external" | function | string[] | invalid`.  `invalid b`
records only the truthiness of an invalid value (truthy values produce the
`INVALID_OPTION` warning, line 96-103). -/
inductive ModuleSideEffectsOption
  | bool (b : Bool)
  | noExternal
  | func (f : String → Bool → Option Bool)
  | list (ids : List String)
  | invalid (truthy : Bool)

/-- `getHasModuleSideEffects` (lines 77-106): derive the
`(id, external) → bool` side-effect oracle.  Returns the predicate together
with whether the `INVALID_OPTION` warning is emitted at construction time.
For a callable the source computes
`!id.startsWith('\0') ? option(id, external) !== false : true`: a synthetic id
is pessimistically side-effectful without consulting the callable. -/
def getHasModuleSideEffects (opt : ModuleSideEffectsOption)
    (pureExternalModules : IdMatcherOption Unit) :
    (String → Bool → Bool) × Bool :=
  match opt with
  | .bool b => (fun _ _ => b, false)
  | .noExternal => (fun _ external => !external, false)
  | .func f =>
      (fun id external =>
        if !startsWithNull id then !(f id external == some false) else true, false)
  | .list ids => (fun id _ => ids.contains id, false)
  | .invalid truthy =>
      let isPureExternalModule := getIdMatcher pureExternalModules
      (fun id external => !(external && isPureExternalModule id ()), truthy)

/-! ## The resolver (lines 42-48, 227-240, 421-443, 472-515) -/
/-- `normalizeRelativeExternalId` (lines 42-48). -/
def normalizeRelativeExternalId (env : Env) (source : String)
    (importer : Option String) : String :=
  if env.isRelative source then
    match importer with
    | some imp => env.resolvePath [imp, "..", source]
    | none => env.resolvePath [source]
  else source

/-- The shared falsy branch of `normalizeResolveIdResult` (lines 499-505 plus
the final record of 506-514): resolve the raw source against the importer;
unless the raw result was literally `false`, a non-external id yields `null`;
otherwise an external `ResolvedId`. -/
def normalizeFalsyResolveId (cfg : LoaderConfig) (env : Env) (isFalse : Bool)
    (importer : Option String) (source : String) : Option ResolvedId :=
  let id := normalizeRelativeExternalId env source importer
  if !isFalse && !cfg.isExternal id importer true then none
  else
    some
      { external := true
        id := id
        moduleSideEffects := cfg.hasModuleSideEffects id true
        syntheticNamedExports := false }

/-- `normalizeResolveIdResult` (lines 472-515).  The source branches first on
truthiness, then `typeof`; here the same four cases appear as a match on the
result's constructors (an empty string is falsy and lands in the falsy
branch, like the source). -/
def normalizeResolveIdResult (cfg : LoaderConfig) (env : Env)
    (resolveIdResult : ResolveIdResult) (importer : Option String)
    (source : String) : Option ResolvedId :=
  match resolveIdResult with
  | .obj o =>
      let external := o.external.getD false
      some
        { external := external
          id := o.id
          moduleSideEffects :=
            (o.moduleSideEffects).getD (cfg.hasModuleSideEffects o.id external)
          syntheticNamedExports := o.syntheticNamedExports.getD false }
  | .str s =>
      if s = "" then normalizeFalsyResolveId cfg env false importer source
      else
        let external := cfg.isExternal s importer true
        let id := if external then normalizeRelativeExternalId env s importer else s
        some
          { external := external
            id := id
            moduleSideEffects := cfg.hasModuleSideEffects id external
            syntheticNamedExports := false }
  | .nullish => normalizeFalsyResolveId cfg env false importer source
  | .fls => normalizeFalsyResolveId cfg env true importer source

/-- The loader's `resolveId` method (lines 227-240): if the configured
`external` matcher accepts the raw specifier `(source, importer, false)`, the
raw result is the literal `false`; otherwise the plugin/built-in pipeline is
consulted; either way the raw result is normalised.  The method has no state
effects, so it is a pure function here. -/
def resolveIdMethod (cfg : LoaderConfig) (env : Env) (source : String)
    (importer : Option String) (skip : Option Nat) : Option ResolvedId :=
  normalizeResolveIdResult cfg env
    (if cfg.isExternal source importer false then .fls
     else env.utilResolveId source importer cfg.preserveSymlinks skip)
    importer source

/-- `handleResolveId` (lines 421-443): unresolved-import policy around a
resolution.  `null` with a relative specifier is the fatal
`UNRESOLVED_IMPORT`; `null` with a bare specifier warns
`UNRESOLVED_IMPORT_TREATED_AS_EXTERNAL` and synthesises an external
`ResolvedId`; a resolution that is external with synthetic named exports
warns `EXTERNAL_SYNTHETIC_EXPORTS` and is returned unchanged. -/
def handleResolveId (cfg : LoaderConfig) (env : Env)
    (resolvedId : Option ResolvedId) (source importer : String) :
    LoaderM ResolvedId :=
  match resolvedId with
  | none =>
      if env.isRelative source then
        throwE ⟨.unresolvedImport, [source, importer]⟩
      else do
        warn ⟨.unresolvedImportTreatedAsExternal, [source, importer]⟩
        pure
          { external := true
            id := source
            moduleSideEffects := cfg.hasModuleSideEffects source true
            syntheticNamedExports := false }
  | some r =>
      (if r.external && r.syntheticNamedExports then
          warn ⟨.externalSyntheticExports, [source, importer]⟩
        else pure ()) >>= fun _ =>
      pure r

/-! ## Memoised specifier resolution (lines 318-320 and 541-543)
`module.resolvedIds[s] = module.resolvedIds[s] || handleResolveId(await this.resolveId(s, module.id), s, module.id)`
appears verbatim on the static-import path and on the dynamic-import path.
Sequentially: read the memo; on a hit, write the same value back and return
it; on a miss, resolve, then write and return the result. -/
def memoizedResolve (cfg : LoaderConfig) (env : Env) (serial : Nat)
    (source : String) : LoaderM ResolvedId := do
  let m ← getInternalM serial
  match alookup m.resolvedIds source with
  | some r => do
      updInternal serial fun m2 => { m2 with resolvedIds := aset m2.resolvedIds source r }
      pure r
  | none => do
      let r ← handleResolveId cfg env (resolveIdMethod cfg env source (some m.id) none)
        source m.id
      updInternal serial fun m2 => { m2 with resolvedIds := aset m2.resolvedIds source r }
      pure r

/-! ## The source fetcher (lines 242-282) -/
/-- The wrapped context message for a failed load (lines 249-252). -/
def loadErrorMessage (env : Env) (id : String) (importer : Option String)
    (msg : String) : String :=
  "Could not load " ++ id ++
    (match importer with
     | some imp => " (imported by " ++ env.relativeId imp ++ ")"
     | none => "") ++ ": " ++ msg

/-- Modelled from the spec: `Module.setSource` (class `Module` is not part of
the given source).  Installing the parsed body sets the module's `sources`,
`dynamicImports` (each with an unset `resolution`), `exportAllSources` and
`exports` (spec sections 3 and 4.4). -/
def installBody (body : ParsedBody) (m : Module) : Module :=
  { m with
    sources := body.sources
    dynamicImports := body.dynamicImports.map (fun a => { argument := a })
    exportAllSources := body.exportAllSources
    exports := body.exports }

/-- See `installBody`. -/
def setSource (serial : Nat) (body : ParsedBody) : LoaderM Unit :=
  updInternal serial (installBody body)

/-- Lines 273-280: merge user-declared flags from the source description into
the module (the head of the non-cache branch of `addModuleSource`). -/
def mergeFlags (desc : SourceDescription) (m : Module) : Module :=
  let m1 :=
    match desc.moduleSideEffects with
    | some b => { m with moduleSideEffects := b }
    | none => m
  match desc.syntheticNamedExports with
  | some b => { m1 with syntheticNamedExports := b }
  | none => m1

/-- See `mergeFlags`; this is lines 273-280. -/
def transformAndSet (env : Env) (id : String) (desc : SourceDescription)
    (serial : Nat) : LoaderM Unit := do
  updInternal serial (mergeFlags desc)
  modifyS fun s => { s with transformLog := s.transformLog ++ [id] }
  setSource serial (env.transform id desc)

/-- Lines 245-254: `(await this.pluginDriver.hookFirst('load', [id])) ?? (await readFile(id))`
with the catch block that wraps the error message. -/
def loadSource (env : Env) (id : String) (importer : Option String) :
    Except Err LoadResult :=
  match env.loadHook id with
  | .error msg => .error ⟨.loadFailure, [loadErrorMessage env id importer msg]⟩
  | .ok (some r) => .ok r
  | .ok none =>
      match env.readFile id with
      | .error msg => .error ⟨.loadFailure, [loadErrorMessage env id importer msg]⟩
      | .ok code => .ok (LoadResult.str code)

/-- Lines 256-261: coerce the loaded value to a source description; an object
whose `code` is not a string is the fatal `BAD_LOADER`. -/
def coerceSource (id : String) (source : LoadResult) : Except Err SourceDescription :=
  match source with
  | .str code => .ok { code := some code }
  | .obj d =>
      match d.code with
      | some _ => .ok d
      | none => .error ⟨.badLoader, [id]⟩

/-- Lines 262-281: replay the prior-build cache when it applies (re-emitting
the cached files), otherwise transform. -/
def applyCachedOrTransform (env : Env) (id : String) (desc : SourceDescription)
    (serial : Nat) : LoaderM Unit :=
  match env.cachedModules id with
  | some cached =>
      if !cached.customTransformCache && some cached.originalCode == desc.code then
        (modifyS fun s => { s with emitLog := s.emitLog ++ cached.transformFiles }) >>=
          fun _ => setSource serial cached.body
      else transformAndSet env id desc serial
  | none => transformAndSet env id desc serial

/-- `addModuleSource` (lines 242-282): record the load, try the `load` hook
and the filesystem (`loadSource`), coerce the result (`coerceSource`), then
replay the cache or transform (`applyCachedOrTransform`). -/
def addModuleSource (env : Env) (id : String) (importer : Option String)
    (serial : Nat) : LoaderM Unit := do
  modifyS fun s => { s with loadLog := s.loadLog ++ [id] }
  match loadSource env id importer with
  | .error e => throwE e
  | .ok source =>
      match coerceSource id source with
      | .error e => throwE e
      | .ok desc => applyCachedOrTransform env id desc serial

/-! ## The export linker (fetchModule tail, lines 372-388) -/
/-- Lines 372-376: the fold mapping each declared export except
`"default"` to the module's own id. -/
def ownExportsFold (mid : String) (exports : List String)
    (acc : List (String × String)) : List (String × String) :=
  exports.foldl (fun acc name => if name = "default" then acc else aset acc name mid) acc

/-- See `ownExportsFold`; this is lines 372-376. -/
def linkOwnExports (serial : Nat) : LoaderM Unit :=
  updInternal serial fun m =>
    { m with exportsAll := ownExportsFold m.id m.exports m.exportsAll }

/-- Lines 381-387: copy one dependency's `exportsAll` entries into the
module, warning `NAMESPACE_CONFLICT` for names already present (the existing
mapping is kept). -/
def copyExportNames (serial : Nat) (mId depId : String) :
    List (String × String) → LoaderM Unit
  | [] => pure ()
  | (name, target) :: rest => do
      let m ← getInternalM serial
      (if (alookup m.exportsAll name).isSome then
          warn ⟨.namespaceConflict, [name, mId, depId]⟩
        else
          updInternal serial fun m2 =>
            { m2 with exportsAll := aset m2.exportsAll name target })
      copyExportNames serial mId depId rest

/-- Lines 377-388, one `export *` source: look up its memoised resolution and
the registry record of the resolved id; an `ExternalModule` is skipped; an
internal module's `exportsAll` is copied name by name.  A missing memo entry
or registry record would be a JS `TypeError` (`.id` / `.exportsAll` of
`undefined`). -/
def linkOneExportSource (serial : Nat) (source : String) : LoaderM Unit := do
  let m ← getInternalM serial
  match alookup m.resolvedIds source with
  | none => throwE ⟨.typeError, [source]⟩
  | some rid => do
      let s ← getS
      match alookup s.modulesById rid.id with
      | none => throwE ⟨.typeError, [rid.id]⟩
      | some depSerial =>
          match s.heap[depSerial]? with
          | none => throwE ⟨.typeError, [rid.id]⟩
          | some (.external _) => pure ()
          | some (.internal dep) => copyExportNames serial m.id dep.id dep.exportsAll

/-- Fold of `linkOneExportSource` over the `export *` sources, in order. -/
def linkExportSources (serial : Nat) : List String → LoaderM Unit
  | [] => pure ()
  | source :: rest => do
      linkOneExportSource serial source
      linkExportSources serial rest

/-- The export-linking tail of `fetchModule` (lines 372-388). -/
def linkModuleExports (serial : Nat) : LoaderM Unit := do
  linkOwnExports serial
  let m ← getInternalM serial
  linkExportSources serial m.exportAllSources

/-! ## The graph walker (lines 312-345, 392-419, 517-550) -/
/-- JS `Array.sort()` on strings (default comparator): a stable sort by
lexicographic order.  A stable sort with respect to a total preorder has a
unique result, so the stable insertion sort agrees with the engine's stable
sort. -/
def jsSortStrings (l : List String) : List String :=
  List.insertionSort (fun a b : String => a ≤ b) l

/-- `resolution.importers.push(module.id); resolution.importers.sort()`
(lines 322-323), on either record kind. -/
def pushImporter (serial : Nat) (importerId : String) : LoaderM Unit :=
  updRecord serial fun r =>
    match r with
    | .internal m => .internal { m with importers := jsSortStrings (m.importers ++ [importerId]) }
    | .external e => .external { e with importers := jsSortStrings (e.importers ++ [importerId]) }

/-- `resolution.dynamicImporters.push(module.id); resolution.dynamicImporters.sort()`
(lines 340-341). -/
def pushDynamicImporter (serial : Nat) (importerId : String) : LoaderM Unit :=
  updRecord serial fun r =>
    match r with
    | .internal m =>
        .internal { m with dynamicImporters := jsSortStrings (m.dynamicImporters ++ [importerId]) }
    | .external e =>
        .external { e with dynamicImporters := jsSortStrings (e.dynamicImporters ++ [importerId]) }

/-- Set `dynamicImports[i].resolution` in a list of dynamic import records. -/
def setDynResolutionAt : List DynamicImport → Nat → DynRes → List DynamicImport
  | [], _, _ => []
  | d :: rest, 0, r => { d with resolution := some r } :: rest
  | d :: rest, n + 1, r => d :: setDynResolutionAt rest n r

/-- `dynamicImport.resolution = …` on the live module. -/
def setDynResolution (serial : Nat) (i : Nat) (r : DynRes) : LoaderM Unit :=
  updInternal serial fun m =>
    { m with dynamicImports := setDynResolutionAt m.dynamicImports i r }

/-- `resolveDynamicImport` (lines 517-550).  For an AST-node argument, the
hook's string answer is returned as is, a falsy answer yields `none`, an
object answer is spread over `{external: false, moduleSideEffects: true}`
(an absent `syntheticNamedExports` reads as `undefined`, hence falsy).  For a
string literal, a nullish hook answer falls back to the same memoised
resolution as static imports; any other answer is normalised and passed
through `handleResolveId`. -/
def resolveDynamicImportGo (cfg : LoaderConfig) (env : Env) (serial : Nat)
    (specifier : DynArg) (importer : String) (resolution : ResolveIdResult) :
    LoaderM (Option (Sum String ResolvedId)) :=
  match specifier with
  | .node =>
      match resolution with
      | .str s => pure (some (Sum.inl s))
      | .obj o =>
          pure
            (some
              (Sum.inr
                { external := o.external.getD false
                  id := o.id
                  moduleSideEffects := o.moduleSideEffects.getD true
                  syntheticNamedExports := o.syntheticNamedExports.getD false }))
      | .nullish => pure none
      | .fls => pure none
  | .lit spec =>
      if resolution = .nullish then do
        let r ← memoizedResolve cfg env serial spec
        pure (some (Sum.inr r))
      else do
        let r ← handleResolveId cfg env
          (normalizeResolveIdResult cfg env resolution importer spec) spec importer
        pure (some (Sum.inr r))

/-- See `resolveDynamicImportGo`, which receives the result of the
`resolveDynamicImport` hook (`const resolution = await …`, line 523). -/
def resolveDynamicImport (cfg : LoaderConfig) (env : Env) (serial : Nat)
    (specifier : DynArg) (importer : String) :
    LoaderM (Option (Sum String ResolvedId)) :=
  resolveDynamicImportGo cfg env serial specifier importer
    (env.resolveDynamicImportHook specifier importer)

/-- `fetchResolvedDependency` (lines 392-419), parameterised by the
recursive `fetchModule` entry (`fetchM`).  For an external resolution: create
the `ExternalModule` record if the id is unregistered, then the registered
record must be external, else fatal `INTERNAL_ID_CANNOT_BE_EXTERNAL`.
Otherwise delegate to `fetchModule`. -/
def externalAfterRegister (source importer id : String) : LoaderM Nat := do
  let s ← getS
  match alookup s.modulesById id with
  | some serial =>
      match s.heap[serial]? with
      | some (.external _) => pure serial
      | _ => throwE ⟨.internalIdCannotBeExternal, [source, importer]⟩
  | none => throwE ⟨.typeError, [id]⟩

/-- See `externalAfterRegister`; this is lines 392-419. -/
def fetchResolvedDependencyF
    (fetchM : String → Option String → Bool → Bool → Bool → LoaderM Nat)
    (source importer : String) (resolvedId : ResolvedId) : LoaderM Nat :=
  if resolvedId.external then do
    let s ← getS
    match alookup s.modulesById resolvedId.id with
    | none => do
        let _ ← registerModule resolvedId.id
          (.external { id := resolvedId.id, moduleSideEffects := resolvedId.moduleSideEffects })
        externalAfterRegister source importer resolvedId.id
    | some _ => externalAfterRegister source importer resolvedId.id
  else
    fetchM resolvedId.id (some importer) resolvedId.moduleSideEffects
      resolvedId.syntheticNamedExports false

/-- The static-import fan-out of `fetchAllDependencies` (lines 314-324),
sequentialised in source order: memoised resolution, dependency
materialisation, back-edge recording. -/
def fetchStaticDeps (cfg : LoaderConfig) (env : Env)
    (fetchM : String → Option String → Bool → Bool → Bool → LoaderM Nat)
    (serial : Nat) (moduleId : String) : List String → LoaderM Unit
  | [] => pure ()
  | source :: rest => do
      let rid ← memoizedResolve cfg env serial source
      let depSerial ← fetchResolvedDependencyF fetchM source moduleId rid
      pushImporter depSerial moduleId
      fetchStaticDeps cfg env fetchM serial moduleId rest

/-- The dynamic-import fan-out of `fetchAllDependencies` (lines 325-343),
sequentialised in source order; `i` is the index into `dynamicImports`. -/
def fetchDynamicDeps (cfg : LoaderConfig) (env : Env)
    (fetchM : String → Option String → Bool → Bool → Bool → LoaderM Nat)
    (serial : Nat) (moduleId : String) : Nat → List DynamicImport → LoaderM Unit
  | _, [] => pure ()
  | i, dyn :: rest => do
      let res ← resolveDynamicImport cfg env serial dyn.argument moduleId
      match res with
      | none => fetchDynamicDeps cfg env fetchM serial moduleId (i + 1) rest
      | some (Sum.inl str) => do
          setDynResolution serial i (.str str)
          fetchDynamicDeps cfg env fetchM serial moduleId (i + 1) rest
      | some (Sum.inr rid) => do
          let depSerial ← fetchResolvedDependencyF fetchM (env.relativeId rid.id) moduleId rid
          setDynResolution serial i (.mod depSerial)
          pushDynamicImporter depSerial moduleId
          fetchDynamicDeps cfg env fetchM serial moduleId (i + 1) rest

/-- `fetchAllDependencies` (lines 312-345): snapshot the module's sources and
dynamic imports, then fan out. -/
def fetchAllDependenciesF (cfg : LoaderConfig) (env : Env)
    (fetchM : String → Option String → Bool → Bool → Bool → LoaderM Nat)
    (serial : Nat) : LoaderM Unit := do
  let m ← getInternalM serial
  fetchStaticDeps cfg env fetchM serial m.id m.sources
  fetchDynamicDeps cfg env fetchM serial m.id 0 m.dynamicImports

/-! ## The module registry (lines 347-390) -/
/-- `new Module(graph, id, moduleSideEffects, syntheticNamedExports, isEntry)`
(lines 360-366). -/
def newModule (id : String) (moduleSideEffects syntheticNamedExports isEntry : Bool) :
    Module :=
  { id := id
    moduleSideEffects := moduleSideEffects
    syntheticNamedExports := syntheticNamedExports
    isEntryPoint := isEntry }

/-- The synchronous prefix of `fetchModule`'s miss path (lines 360-368):
construct the module, insert it into the registry and mark the id watched —
all before the first `await`, so the registration is visible to every other
task before any suspension. -/
def registeredState (s : LoaderState) (id : String)
    (moduleSideEffects syntheticNamedExports isEntry : Bool) : LoaderState :=
  { s with
    heap := s.heap ++ [.internal (newModule id moduleSideEffects syntheticNamedExports isEntry)]
    modulesById := aset s.modulesById id s.heap.length
    watchFiles := s.watchFiles ++ [id] }

/-- The suspending remainder of `fetchModule`'s miss path (lines 369-389):
fetch the source, fan out over the dependencies, link the exports, and
return the new module. -/
def fetchModuleRest (cfg : LoaderConfig) (env : Env)
    (fetchM : String → Option String → Bool → Bool → Bool → LoaderM Nat)
    (id : String) (importer : Option String) (serial : Nat) : LoaderM Nat := do
  addModuleSource env id importer serial
  fetchAllDependenciesF cfg env fetchM serial
  linkModuleExports serial
  pure serial

/-- One unrolling of `fetchModule` (lines 347-390): if the registry already
holds an internal module under `id`, update `isEntryPoint |= isEntry` and
return it; otherwise (no record, or an external record, which the
`instanceof Module` test rejects) construct and register a new module and run
the miss path, with the registry entry for `id` re-pointed at the new
module. -/
def fetchModuleGo (cfg : LoaderConfig) (env : Env)
    (fetchM : String → Option String → Bool → Bool → Bool → LoaderM Nat)
    (id : String) (importer : Option String)
    (moduleSideEffects syntheticNamedExports isEntry : Bool) : LoaderM Nat := fun s =>
  match lookupInternal s id with
  | some (serial, m) =>
      .ok (serial,
        { s with
          heap := s.heap.set serial
            (.internal { m with isEntryPoint := m.isEntryPoint || isEntry }) })
  | none =>
      fetchModuleRest cfg env fetchM id importer s.heap.length
        (registeredState s id moduleSideEffects syntheticNamedExports isEntry)

/-- `fetchModule` with fuel for the recursive graph walk. -/
def fetchModule (cfg : LoaderConfig) (env : Env) :
    Nat → String → Option String → Bool → Bool → Bool → LoaderM Nat
  | 0 => fun _ _ _ _ _ => throwE ⟨.outOfFuel, []⟩
  | fuel + 1 => fun id importer moduleSideEffects syntheticNamedExports isEntry =>
      fetchModuleGo cfg env (fetchModule cfg env fuel) id importer
        moduleSideEffects syntheticNamedExports isEntry

/-! ## The entry coordinator (lines 133-240, 284-293, 445-470) -/
/-- The pure entry-resolution decision of `loadEntryModule` (lines 457-469)
on the raw result of the plugin/built-in pipeline: a literal `false` or a
(truthy) object with a truthy `external` is the fatal
`ENTRY_CANNOT_BE_EXTERNAL`; a string id (from the object's `id` or the raw
string itself) proceeds; anything else is the fatal `UNRESOLVED_ENTRY`.
Note the configured `external` id-matcher plays no part here. -/
def resolveEntryId (unresolvedId : String) : ResolveIdResult → Except Err String
  | .fls => .error ⟨.entryCannotBeExternal, [unresolvedId]⟩
  | .obj o =>
      if o.external.getD false then .error ⟨.entryCannotBeExternal, [unresolvedId]⟩
      else .ok o.id
  | .str s => .ok s
  | .nullish => .error ⟨.unresolvedEntry, [unresolvedId]⟩

/-- `loadEntryModule` (lines 445-470): resolve via `utils/resolveId` directly
(not via the loader's `resolveId` method, so the configured `external`
matcher is never consulted) and fetch with
`moduleSideEffects = true, syntheticNamedExports = false`. -/
def loadEntryModule (cfg : LoaderConfig) (env : Env) (fuel : Nat)
    (unresolvedId : String) (isEntry : Bool) (importer : Option String) :
    LoaderM Nat := fun s =>
  match resolveEntryId unresolvedId
      (env.utilResolveId unresolvedId importer cfg.preserveSymlinks none) with
  | .error e => .error e
  | .ok id => fetchModule cfg env fuel id none true false isEntry s

/-- Sequentialised `Promise.all` of the per-entry `loadEntryModule` calls
(lines 143-147). -/
def loadEntries (cfg : LoaderConfig) (env : Env) (fuel : Nat) :
    List UnresolvedModule → LoaderM (List Nat)
  | [] => pure []
  | u :: rest => do
      let serial ← loadEntryModule cfg env fuel u.id true u.importer
      let serials ← loadEntries cfg env fuel rest
      pure (serial :: serials)

/-- Lines 152-162: per-entry flag and naming updates. -/
def applyEntryNaming (u : UnresolvedModule) (isUserDefined : Bool) (serial : Nat) :
    LoaderM Unit := do
  updInternal serial fun m =>
    { m with isUserDefinedEntryPoint := m.isUserDefinedEntryPoint || isUserDefined }
  match u.fileName with
  | some f => updInternal serial fun m => { m with chunkFileNames := setAdd m.chunkFileNames f }
  | none =>
      match u.name with
      | some n => do
          updInternal serial fun m =>
            if m.chunkName = none then { m with chunkName := some n } else m
          if isUserDefined then
            updInternal serial fun m => { m with userChunkNames := setAdd m.userChunkNames n }
      | none => pure ()

/-- The id of the record behind a reference, if the reference is live. -/
def recIdAt (heap : List ModuleRecord) (serial : Nat) : Option String :=
  (heap[serial]?).map ModuleRecord.id

/-- Lines 163-171: find the entry record whose module has the given id; if
found, lower its index to the minimum (keeping its position and its module
reference); else push a new record at the end. -/
def updateIndexed (heap : List ModuleRecord) (entryId : String) (serial : Nat)
    (moduleIndex : Nat) : List (Nat × Nat) → List (Nat × Nat)
  | [] => [(moduleIndex, serial)]
  | (i, ser) :: rest =>
      if recIdAt heap ser = some entryId then (Nat.min i moduleIndex, ser) :: rest
      else (i, ser) :: updateIndexed heap entryId serial moduleIndex rest

/-- The post-load loop of `addEntryModules` (lines 148-172), walking the
(unresolved, loaded-module) pairs with the running reserved index. -/
def indexEntries (isUserDefined : Bool) :
    List (UnresolvedModule × Nat) → Nat → LoaderM Unit
  | [], _ => pure ()
  | (u, serial) :: rest, moduleIndex => do
      applyEntryNaming u isUserDefined serial
      let s ← getS
      (match recIdAt s.heap serial with
       | none => throwE ⟨.typeError, []⟩
       | some entryId =>
          modifyS fun s2 =>
            { s2 with
              indexedEntryModules :=
                updateIndexed s2.heap entryId serial moduleIndex s2.indexedEntryModules })
      indexEntries isUserDefined rest (moduleIndex + 1)

/-- The sort of lines 173-175: the comparator `(a, b) => a > b ? 1 : -1`
together with the engine's stable sort order elements by ascending index,
keeping the original order of equal indices — a stable insertion sort. -/
def sortIndexed (l : List (Nat × Nat)) : List (Nat × Nat) :=
  List.insertionSort (fun a b : Nat × Nat => a.1 ≤ b.1) l

/-- The result record of `addEntryModules` (lines 179-183), with module
references as serials. -/
structure EntryModulesResult where
  entryModules : List Nat
  manualChunkModulesByAlias : List (String × List Nat)
  newEntryModules : List Nat
  deriving DecidableEq, Repr

/-- `addEntryModules` (lines 133-184): reserve a contiguous index range,
load every entry, apply flags and indexing in submission order, sort the
entry list and return it together with the manual-chunk map and the freshly
loaded serials.  `awaitLoadModulesPromise` (lines 295-310) only sequences
batches; under the sequential embedding it is the identity. -/
def addEntryModules (cfg : LoaderConfig) (env : Env) (fuel : Nat)
    (unresolved : List UnresolvedModule) (isUserDefined : Bool) :
    LoaderM EntryModulesResult := do
  let s0 ← getS
  let firstEntryModuleIndex := s0.nextEntryModuleIndex
  modifyS fun s =>
    { s with nextEntryModuleIndex := s.nextEntryModuleIndex + unresolved.length }
  let serials ← loadEntries cfg env fuel unresolved
  indexEntries isUserDefined (unresolved.zip serials) firstEntryModuleIndex
  modifyS fun s => { s with indexedEntryModules := sortIndexed s.indexedEntryModules }
  let s1 ← getS
  pure
    { entryModules := s1.indexedEntryModules.map (fun p => p.2)
      manualChunkModulesByAlias := s1.manualChunkModules
      newEntryModules := serials }

/-! ## Manual chunks (lines 186-225, 284-293) -/
/-- Lines 289-292: append the module to the alias's list, creating it on
first use. -/
def assignChunk (aliasName : String) (serial : Nat) : LoaderM Unit := do
  updInternal serial fun m => { m with manualChunkAlias := some aliasName }
  modifyS fun s =>
    let cur := (alookup s.manualChunkModules aliasName).getD []
    { s with manualChunkModules := aset s.manualChunkModules aliasName (cur ++ [serial]) }

/-- `addModuleToManualChunk` (lines 284-293): a module already aliased to a
different chunk is the fatal `CANNOT_ASSIGN_MODULE_TO_CHUNK`; otherwise
(re)set the alias and push the module onto the alias's list. -/
def addModuleToManualChunk (aliasName : String) (serial : Nat) : LoaderM Unit := do
  let m ← getInternalM serial
  match m.manualChunkAlias with
  | some existing =>
      if existing ≠ aliasName then
        throwE ⟨.cannotAssignModuleToChunk, [m.id, aliasName, existing]⟩
      else assignChunk aliasName serial
  | none => assignChunk aliasName serial

/-- Lines 187-193: flatten `{alias: [id]}` into `(alias, id)` pairs in
declaration order. -/
def flattenManualChunks : List (String × List String) → List (String × String)
  | [] => []
  | (aliasName, ids) :: rest => ids.map (fun i => (aliasName, i)) ++ flattenManualChunks rest

/-- The sequentialised `Promise.all` of line 195-196: load each manual-chunk
id as a non-entry module. -/
def loadManualChunkModules (cfg : LoaderConfig) (env : Env) (fuel : Nat) :
    List (String × String) → LoaderM (List (String × Nat))
  | [] => pure []
  | (aliasName, id) :: rest => do
      let serial ← loadEntryModule cfg env fuel id false none
      let more ← loadManualChunkModules cfg env fuel rest
      pure ((aliasName, serial) :: more)

/-- Lines 198-203: assign every loaded module to its alias, in order. -/
def assignLoadedChunks : List (String × Nat) → LoaderM Unit
  | [] => pure ()
  | (aliasName, serial) :: rest => do
      addModuleToManualChunk aliasName serial
      assignLoadedChunks rest

/-- `addManualChunks` (lines 186-206). -/
def addManualChunks (cfg : LoaderConfig) (env : Env) (fuel : Nat)
    (manualChunks : List (String × List String)) : LoaderM Unit := do
  let loaded ← loadManualChunkModules cfg env fuel (flattenManualChunks manualChunks)
  assignLoadedChunks loaded

/-- The body of `assignManualChunks` (lines 217-224) over the registry
entries: for every internal module, consult the user function; a string alias
is assigned via `addModuleToManualChunk`. -/
def assignManualChunksGo (getManualChunk : String → Option String) :
    List (String × Nat) → LoaderM Unit
  | [] => pure ()
  | (_, serial) :: rest => do
      let s ← getS
      match s.heap[serial]? with
      | some (.internal m) =>
          match getManualChunk m.id with
          | some aliasName => do
              addModuleToManualChunk aliasName serial
              assignManualChunksGo getManualChunk rest
          | none => assignManualChunksGo getManualChunk rest
      | _ => assignManualChunksGo getManualChunk rest

/-- `assignManualChunks` (lines 212-225). -/
def assignManualChunks (getManualChunk : String → Option String) : LoaderM Unit := do
  let s ← getS
  assignManualChunksGo getManualChunk s.modulesById

/-! ## Small-step model of the memoised resolution under cooperative
concurrency
The memo expression
`module.resolvedIds[s] = module.resolvedIds[s] || handleResolveId(await this.resolveId(s, module.id), s, module.id)`
(lines 318-320 on the static path, lines 541-543 on the dynamic path) reads
the memo **before** the `await` suspends the task and writes it **after** the
task resumes.  Under the spec's cooperative scheduling model (section 5),
other tasks run between the read and the write.  One resolver task therefore
has three phases: about to read; suspended in `resolveId`; finished (with its
observed value and whether it wrote).  `v` is the value `handleResolveId`
produces when the task resumes. -/
inductive MemoTaskPhase
  | ready
  | suspended
  | done (result : ResolvedId) (wrote : Bool)
  deriving DecidableEq, Repr

/-- One scheduling step of one memo-resolver task against the shared memo
cell: a `ready` task that finds the memo written finishes with that value
without writing (the `||` short-circuit); a `ready` task that finds it empty
suspends; a `suspended` task resumes, writes its value and finishes. -/
def memoTaskStep (v : ResolvedId) :
    Option ResolvedId → MemoTaskPhase → Option ResolvedId × MemoTaskPhase
  | memo, .ready =>
      match memo with
      | some r => (some r, .done r false)
      | none => (none, .suspended)
  | _, .suspended => (some v, .done v true)
  | memo, ph => (memo, ph)

/-- The shared memo cell `module.resolvedIds[s]` with the two tasks that can
race on it: the static-import task and the dynamic-import task for the same
`(module, specifier)` pair, run concurrently by `Promise.all`
(lines 313-344). -/
structure MemoRace where
  memo : Option ResolvedId
  task1 : MemoTaskPhase
  task2 : MemoTaskPhase
  deriving DecidableEq, Repr

/-- Schedule one step of task 1 (`true`) or task 2 (`false`); `v1`, `v2` are
the values the two in-flight resolutions produce at resume time (the plugin
pipeline may answer differently per call). -/
def memoRaceStep (v1 v2 : ResolvedId) (which : Bool) (st : MemoRace) : MemoRace :=
  if which then
    let p := memoTaskStep v1 st.memo st.task1
    { st with memo := p.1, task1 := p.2 }
  else
    let p := memoTaskStep v2 st.memo st.task2
    { st with memo := p.1, task2 := p.2 }

/-- Run a schedule (a list of task choices). -/
def memoRaceRun (v1 v2 : ResolvedId) (schedule : List Bool) (st : MemoRace) :
    MemoRace :=
  schedule.foldl (fun acc w => memoRaceStep v1 v2 w acc) st

/-- Both tasks start before the memo has ever been written. -/
def memoRaceInit : MemoRace :=
  { memo := none, task1 := .ready, task2 := .ready }

/-- How often a task wrote the memo in a final configuration. -/
def memoWrites (st : MemoRace) : Nat :=
  (match st.task1 with | .done _ true => 1 | _ => 0) +
  (match st.task2 with | .done _ true => 1 | _ => 0)

/-! ## Concrete test fixtures
A deterministic host used for witnesses and counterexamples: every specifier
resolves to itself, every module loads as the empty source and parses to an
empty body (no dependencies), nothing is cached, `\x2f`-prefixed ids count as
relative paths. -/
/-- A host where every id resolves to itself and loads an empty, dependency
free module. -/
def envSelf : Env :=
  { utilResolveId := fun src _ _ _ => .str src
    resolveDynamicImportHook := fun _ _ => .nullish
    loadHook := fun _ => .ok (some (.str ""))
    readFile := fun _ => .ok ""
    transform := fun _ _ => {}
    cachedModules := fun _ => none
    isRelative := fun s =>
      charsStartWith s.data "./".data || charsStartWith s.data "../".data ||
        charsStartWith s.data "/".data
    resolvePath := fun parts => String.intercalate "/" parts
    relativeId := fun s => s }

/-- A configuration with no externals and every module side-effectful. -/
def cfgNone : LoaderConfig :=
  { isExternal := fun _ _ _ => false
    hasModuleSideEffects := fun _ _ => true
    preserveSymlinks := false }

/-- A configuration whose `external` matcher accepts everything. -/
def cfgAllExternal : LoaderConfig :=
  { isExternal := fun _ _ _ => true
    hasModuleSideEffects := fun _ _ => true
    preserveSymlinks := false }

/-- The final state of a run, if it succeeded. -/
def stateOf {α : Type} : Except Err (α × LoaderState) → Option LoaderState
  | .ok (_, s) => some s
  | .error _ => none

/-- The value of a run, if it succeeded. -/
def valueOf {α : Type} : Except Err (α × LoaderState) → Option α
  | .ok (a, _) => some a
  | .error _ => none

/-- Whether a heap slot holds an internal module. -/
def internalAtH (heap : List ModuleRecord) (serial : Nat) : Bool :=
  match heap[serial]? with
  | some (.internal _) => true
  | _ => false

/-- Whether a reference points at an internal module. -/
def isInternalRef (s : LoaderState) (serial : Nat) : Bool :=
  internalAtH s.heap serial

/-- Whether a reference points at an external module. -/
def isExternalRef (s : LoaderState) (serial : Nat) : Bool :=
  match s.heap[serial]? with
  | some (.external _) => true
  | _ => false

/-- A one-module state whose module is already assigned to chunk `"a"`. -/
def chunkTestModule : Module :=
  { newModule "/m" true false false with manualChunkAlias := some "a" }

/-- See `chunkTestModule`. -/
def chunkTestState : LoaderState :=
  { heap := [.internal chunkTestModule]
    modulesById := [("/m", 0)] }

/-! ## Claim C4: the `resolvedIds` memo under concurrency -/
/-- Two distinct resolutions, as a racing plugin may produce. -/
def ridA : ResolvedId :=
  { external := false, id := "/a", moduleSideEffects := true, syntheticNamedExports := false }

/-- See `ridA`. -/
def ridB : ResolvedId :=
  { external := false, id := "/b", moduleSideEffects := true, syntheticNamedExports := false }

/-! ## Claim C2: the at-most-one-instance-per-id registry invariant -/
/-- A bare import treated as external registers `"lodash"` as an
`ExternalModule` (this is `fetchResolvedDependency` on the external branch). -/
def lodashExternalRun : Except Err (Nat × LoaderState) :=
  fetchResolvedDependencyF (fetchModule cfgNone envSelf 1) "lodash" "/main"
    { external := true
      id := "lodash"
      moduleSideEffects := true
      syntheticNamedExports := false }
    initState

/-- Fetching the same id as internal afterwards — as `loadEntryModule` does
when the pipeline resolves an entry to that id, or as
`fetchResolvedDependency` does on a non-external resolution of that id. -/
def lodashInternalRun : Except Err (Nat × LoaderState) :=
  match lodashExternalRun with
  | .ok (_, s1) => fetchModule cfgNone envSelf 1 "lodash" none true false true s1
  | .error e => .error e

/-! ## Claim C8: manual-chunk re-assignment is not a no-op -/
/-- `addManualChunks({a: [/m1]})` on the fresh state. -/
def manualChunkRun1 : Except Err (Unit × LoaderState) :=
  addManualChunks cfgNone envSelf 2 [("a", ["/m1"])] initState

/-- … followed by `assignManualChunks(fn)` with `fn(/m1) = a`. -/
def manualChunkRun2 : Except Err (Unit × LoaderState) :=
  match manualChunkRun1 with
  | .ok (_, s1) => assignManualChunks (fun id => if id = "/m1" then some "a" else none) s1
  | .error e => .error e

/-- The `manualChunkAlias` of the module at serial 0, if the run succeeded. -/
def aliasAt0 (r : Except Err (Unit × LoaderState)) : Option (Option String) :=
  match r with
  | .ok (_, s) =>
      match s.heap[0]? with
      | some (ModuleRecord.internal m) => some m.manualChunkAlias
      | _ => none
  | .error _ => none

/-- The registry-preservation relation between two states: every id mapped to
an internal module keeps exactly that mapping, heap slots that hold internal
modules keep holding internal modules, and heap slots never change their id. -/
structure RegExt (s s' : LoaderState) : Prop where
  internalMap : ∀ id serial, alookup s.modulesById id = some serial →
    internalAtH s.heap serial = true → alookup s'.modulesById id = some serial
  internalKept : ∀ serial, internalAtH s.heap serial = true →
    internalAtH s'.heap serial = true
  idKept : ∀ serial i, recIdAt s.heap serial = some i → recIdAt s'.heap serial = some i

/-- `RegExt` plus: the entry list, the manual-chunk map and the entry index
counter are untouched.  This holds for every operation below the entry
coordinator. -/
structure Ext (s s' : LoaderState) extends RegExt s s' : Prop where
  entriesEq : s'.indexedEntryModules = s.indexedEntryModules
  chunksEq : s'.manualChunkModules = s.manualChunkModules
  nextIndexEq : s'.nextEntryModuleIndex = s.nextEntryModuleIndex

/-- The log invariant: neither the load log nor the transform log repeats an
id, and every logged id is registered as an internal module. -/
def logInv (s : LoaderState) : Prop :=
  (s.loadLog.Nodup ∧ ∀ id ∈ s.loadLog, (lookupInternal s id).isSome) ∧
  (s.transformLog.Nodup ∧ ∀ id ∈ s.transformLog, (lookupInternal s id).isSome)

/-- Every operation below the entry coordinator satisfies `Walk`: a
successful run extends the state (`Ext`) and preserves the log invariant. -/
def Walk {α : Type} (op : LoaderM α) : Prop :=
  ∀ s a s', op s = .ok (a, s') → Ext s s' ∧ (logInv s → logInv s')

/-- The one-module registry used by the C1 witness. -/
def fmTestState : LoaderState :=
  { heap := [.internal (newModule "/m" true false false)]
    modulesById := [("/m", 0)] }

/-- The state produced by fetching the fresh id `"/m2"` in `envSelf`. -/
def fmRunState : LoaderState :=
  { heap := [.internal (newModule "/m2" true false true)]
    modulesById := [("/m2", 0)]
    watchFiles := ["/m2"]
    loadLog := ["/m2"]
    transformLog := ["/m2"] }

/-- Registry-only preservation, satisfied also by the entry coordinator and
the manual-chunk operations (which do change the entry list and chunk map). -/
def RegWalk {α : Type} (op : LoaderM α) : Prop :=
  ∀ s a s', op s = .ok (a, s') → RegExt s s'

/-- Fixture: a dependency module `X` whose namespace exports `foo` and `bar`. -/
def c6X : Module :=
  { id := "X", moduleSideEffects := true, syntheticNamedExports := false,
    isEntryPoint := false, exportsAll := [("foo", "X"), ("bar", "X")] }

/-- Fixture: a module `Y` declaring `foo` and `default`, with
`export * from "X"` already resolved to the internal module `X`. -/
def c6Y : Module :=
  { id := "Y", moduleSideEffects := true, syntheticNamedExports := false,
    isEntryPoint := false, exportAllSources := ["X"],
    exports := ["foo", "default"],
    resolvedIds := [("X", ⟨false, "X", true, false⟩)] }

/-- Fixture: the linking state, `Y` at serial 0 and `X` at serial 1. -/
def c6State : LoaderState :=
  { heap := [.internal c6Y, .internal c6X], modulesById := [("Y", 0), ("X", 1)] }

/-- Fixture: the state after linking `Y`. -/
def c6Run : LoaderState :=
  match linkModuleExports 0 c6State with
  | .ok (_, s) => s
  | .error _ => initState

/-- Fixture: `Y` after its own exports were linked. -/
def c6Y1 : Module := { c6Y with exportsAll := [("foo", "Y")] }

/-- Fixture: the state just before the copy phase of linking `Y`. -/
def c6State1 : LoaderState :=
  { heap := [.internal c6Y1, .internal c6X], modulesById := [("Y", 0), ("X", 1)] }

/-- Fixture: the state after copying the `export * from "X"` names into `Y`. -/
def c6Run1 : LoaderState :=
  match linkOneExportSource 0 "X" c6State1 with
  | .ok (_, s) => s
  | .error _ => initState

/-- Fixture: a module whose single `export *` source resolved external. -/
def c6YE : Module :=
  { id := "Y", moduleSideEffects := true, syntheticNamedExports := false,
    isEntryPoint := false, exportAllSources := ["E"],
    resolvedIds := [("E", ⟨true, "E", true, false⟩)] }

/-- Fixture: `c6YE` at serial 0 next to the external module `E` at serial 1. -/
def c6ExtState : LoaderState :=
  { heap := [.internal c6YE, .external ⟨"E", true, [], []⟩],
    modulesById := [("Y", 0), ("E", 1)] }

/-- Fixture: `chunkTestState` after its module was pushed onto chunk `"a"`. -/
def chunkTestState2 : LoaderState :=
  { chunkTestState with manualChunkModules := [("a", [0])] }

/-! ## Claim C5: entry bookkeeping of `addEntryModules` -/
instance : IsTotal (Nat × Nat) (fun a b : Nat × Nat => a.1 ≤ b.1) :=
  ⟨fun a b => Nat.le_total a.1 b.1⟩

instance : IsTrans (Nat × Nat) (fun a b : Nat × Nat => a.1 ≤ b.1) :=
  ⟨fun _ _ _ hab hbc => Nat.le_trans hab hbc⟩

/-- Fixture: an unresolved entry for the id `"/e"`. -/
def c5U : UnresolvedModule := { id := "/e" }

/-- Fixture: result of the first `addEntryModules([c5U])` batch. -/
def c5R1 : EntryModulesResult :=
  match addEntryModules cfgNone envSelf 1 [c5U] true initState with
  | .ok (r, _) => r
  | .error _ => ⟨[], [], []⟩

/-- Fixture: state after the first `addEntryModules([c5U])` batch. -/
def c5S1 : LoaderState :=
  match addEntryModules cfgNone envSelf 1 [c5U] true initState with
  | .ok (_, s) => s
  | .error _ => initState

/-- Fixture: result of the second `addEntryModules([c5U])` batch. -/
def c5R2 : EntryModulesResult :=
  match addEntryModules cfgNone envSelf 1 [c5U] true c5S1 with
  | .ok (r, _) => r
  | .error _ => ⟨[], [], []⟩

/-- Fixture: state after the second `addEntryModules([c5U])` batch. -/
def c5S2 : LoaderState :=
  match addEntryModules cfgNone envSelf 1 [c5U] true c5S1 with
  | .ok (_, s) => s
  | .error _ => initState

/-- Fixture: result of the one-batch duplicate submission `[c5U, c5U]`. -/
def c5RB : EntryModulesResult :=
  match addEntryModules cfgNone envSelf 1 [c5U, c5U] true initState with
  | .ok (r, _) => r
  | .error _ => ⟨[], [], []⟩

/-- Fixture: state after the one-batch duplicate submission `[c5U, c5U]`. -/
def c5SB : LoaderState :=
  match addEntryModules cfgNone envSelf 1 [c5U, c5U] true initState with
  | .ok (_, s) => s
  | .error _ => initState

@[simp] theorem LoaderM.bind_apply {α β : Type} (m : LoaderM α) (f : α → LoaderM β)
    (s : LoaderState) :
    (m >>= f) s =
      match m s with
      | .ok (a, s') => f a s'
      | .error e => .error e := rfl

@[simp] theorem LoaderM.pure_apply {α : Type} (a : α) (s : LoaderState) :
    (Pure.pure a : LoaderM α) s = .ok (a, s) := rfl

@[simp] theorem throwE_apply {α : Type} (e : Err) (s : LoaderState) :
    (throwE e : LoaderM α) s = .error e := rfl

@[simp] theorem getS_apply (s : LoaderState) : getS s = .ok (s, s) := rfl

@[simp] theorem modifyS_apply (f : LoaderState → LoaderState) (s : LoaderState) :
    modifyS f s = .ok ((), f s) := rfl

@[simp] theorem registerModule_apply (id : String) (r : ModuleRecord) (s : LoaderState) :
    registerModule id r s =
      .ok (s.heap.length,
        { s with
          heap := s.heap ++ [r]
          modulesById := aset s.modulesById id s.heap.length }) := rfl

/-! ## Claim C3: `handleResolveId` -/
/-- C3: `handleResolveId(null, s, i)` raises the fatal `UNRESOLVED_IMPORT`
error when `s` is relative; when `s` is bare it emits the
`UNRESOLVED_IMPORT_TREATED_AS_EXTERNAL` warning and returns
`{external: true, id: s, moduleSideEffects: policy(s, true), syntheticNamedExports: false}`;
a non-null resolution is returned unchanged, with an
`EXTERNAL_SYNTHETIC_EXPORTS` warning exactly when it is external with
synthetic named exports. -/
theorem handleResolveId_spec (cfg : LoaderConfig) (env : Env)
    (source importer : String) (s : LoaderState) :
    (env.isRelative source = true →
      handleResolveId cfg env none source importer s =
        .error ⟨.unresolvedImport, [source, importer]⟩) ∧
    (env.isRelative source = false →
      handleResolveId cfg env none source importer s =
        .ok
          ({ external := true
             id := source
             moduleSideEffects := cfg.hasModuleSideEffects source true
             syntheticNamedExports := false },
           { s with
             warnings := s.warnings ++
               [⟨.unresolvedImportTreatedAsExternal, [source, importer]⟩] })) ∧
    (∀ r : ResolvedId,
      handleResolveId cfg env (some r) source importer s =
        .ok (r,
          if r.external && r.syntheticNamedExports then
            { s with
              warnings := s.warnings ++ [⟨.externalSyntheticExports, [source, importer]⟩] }
          else s)) := by
  refine ⟨fun h => ?_, fun h => ?_, fun r => ?_⟩
  · simp [handleResolveId, h]
  · simp [handleResolveId, h, warn, modifyS, Bind.bind, LoaderM.bind, Pure.pure, LoaderM.pure]
  · by_cases hx : r.external && r.syntheticNamedExports <;>
      simp [handleResolveId, hx, warn, modifyS, Bind.bind, LoaderM.bind, Pure.pure,
        LoaderM.pure]

/-- Witness for `handleResolveId_spec` at concrete inputs: a relative
specifier errors, a bare one warns and synthesises the external resolution. -/
theorem handleResolveId_spec_witness :
    handleResolveId cfgNone envSelf none "./x" "/main" initState =
      .error ⟨.unresolvedImport, ["./x", "/main"]⟩ ∧
    handleResolveId cfgNone envSelf none "lodash" "/main" initState =
      .ok
        ({ external := true
           id := "lodash"
           moduleSideEffects := true
           syntheticNamedExports := false },
         { initState with
           warnings := [⟨.unresolvedImportTreatedAsExternal, ["lodash", "/main"]⟩] }) :=
  ⟨(handleResolveId_spec cfgNone envSelf "./x" "/main" initState).1 (by decide),
   (handleResolveId_spec cfgNone envSelf "lodash" "/main" initState).2.1 (by decide)⟩

/-! ## Claim C7: `addModuleToManualChunk` -/
/-- C7: once a module's `manualChunkAlias` is a non-null `a`, assigning a
different alias `b` raises the fatal `CANNOT_ASSIGN_MODULE_TO_CHUNK` before
any mutation (the error propagates; the module's alias in the pre-state is
still `a`), while re-assigning `a` succeeds and keeps the alias at `a`
(appending the module to the alias's list once more). -/
theorem addModuleToManualChunk_spec (a b : String) (serial : Nat)
    (s : LoaderState) (m : Module)
    (hm : s.heap[serial]? = some (.internal m))
    (ha : m.manualChunkAlias = some a) :
    (b ≠ a →
      addModuleToManualChunk b serial s =
        .error ⟨.cannotAssignModuleToChunk, [m.id, b, a]⟩) ∧
    addModuleToManualChunk a serial s =
      .ok ((),
        { s with
          heap := s.heap.set serial (.internal { m with manualChunkAlias := some a })
          manualChunkModules :=
            aset s.manualChunkModules a
              ((alookup s.manualChunkModules a).getD [] ++ [serial]) }) := by
  constructor
  · intro hb
    simp [addModuleToManualChunk, getInternalM, hm, ha, Bind.bind, LoaderM.bind,
      Ne.symm hb]
  · simp [addModuleToManualChunk, getInternalM, hm, ha, Bind.bind, LoaderM.bind,
      assignChunk, updInternal, setRecord, modifyS, Pure.pure, LoaderM.pure]

/-- Witness for `addModuleToManualChunk_spec`: on the concrete one-module
state, alias `"b"` errors and alias `"a"` succeeds. -/
theorem addModuleToManualChunk_spec_witness :
    addModuleToManualChunk "b" 0 chunkTestState =
      .error ⟨.cannotAssignModuleToChunk, ["/m", "b", "a"]⟩ ∧
    addModuleToManualChunk "a" 0 chunkTestState =
      .ok ((),
        { chunkTestState with
          heap := chunkTestState.heap.set 0
            (.internal { chunkTestModule with manualChunkAlias := some "a" })
          manualChunkModules := [("a", [0])] }) :=
  ⟨(addModuleToManualChunk_spec "a" "b" 0 chunkTestState chunkTestModule rfl rfl).1
      (by decide),
   (addModuleToManualChunk_spec "a" "b" 0 chunkTestState chunkTestModule rfl rfl).2⟩

/-! ## Claim C9: synthetic ids never reach user callables -/
/-- C9: for every id beginning with the NUL byte, the id-matcher compiled
from a user callable returns `false`, and the side-effect policy derived
from a user callable returns `true` — in both cases the result does not
depend on the callable at all, so synthetic ids never reach user-supplied
`external` or `moduleSideEffects` functions. -/
theorem nul_ids_never_reach_user_callables {A : Type} (id : String)
    (hid : startsWithNull id = true) :
    (∀ (f : String → A → Option Bool) (args : A),
      getIdMatcher (.func f) id args = false) ∧
    (∀ (f g : String → A → Option Bool) (args : A),
      getIdMatcher (.func f) id args = getIdMatcher (.func g) id args) ∧
    (∀ (f : String → Bool → Option Bool) (pureOpt : IdMatcherOption Unit)
        (external : Bool),
      (getHasModuleSideEffects (.func f) pureOpt).1 id external = true) ∧
    (∀ (f g : String → Bool → Option Bool) (pureOpt : IdMatcherOption Unit)
        (external : Bool),
      (getHasModuleSideEffects (.func f) pureOpt).1 id external =
        (getHasModuleSideEffects (.func g) pureOpt).1 id external) := by
  refine ⟨fun f args => ?_, fun f g args => ?_, fun f pureOpt external => ?_,
    fun f g pureOpt external => ?_⟩ <;>
    simp [getIdMatcher, getHasModuleSideEffects, hid]

/-- Witness for `nul_ids_never_reach_user_callables` at the synthetic id
`"\x00virtual:x"`, with callables answering `true` and `false`. -/
theorem nul_ids_never_reach_user_callables_witness :
    @getIdMatcher Unit (.func fun _ _ => some true) "\x00virtual:x" () = false ∧
    (getHasModuleSideEffects (.func fun _ _ => some false) .fls).1 "\x00virtual:x" true
      = true :=
  ⟨(@nul_ids_never_reach_user_callables Unit "\x00virtual:x" (by decide)).1
      (fun _ _ => some true) (),
   (@nul_ids_never_reach_user_callables Unit "\x00virtual:x" (by decide)).2.2.1
      (fun _ _ => some false) .fls true⟩

/-- C4 counterexample: when the static-import task and the dynamic-import
task for the same `(module, specifier)` both read the memo before either
resolution completes (schedule: task 1 reads, task 2 reads, task 1 resumes
and writes, task 2 resumes and writes), `resolvedIds[s]` is written twice,
and the final memo holds the **second** value written, not the first. -/
theorem resolvedIds_double_write_cex :
    memoRaceRun ridA ridB [true, false, true, false] memoRaceInit =
      { memo := some ridB, task1 := .done ridA true, task2 := .done ridB true } ∧
    memoWrites (memoRaceRun ridA ridB [true, false, true, false] memoRaceInit) = 2 ∧
    ridA ≠ ridB := by decide

/-- C4 amended: the memo guards only against starting a new resolution after
a completed one: a task that reads `resolvedIds[s]` after a previous write
observes the first value written and performs no write of its own, so
non-overlapping resolutions of the same specifier write the entry exactly
once and the second lookup observes the first result.  (Two resolutions that
overlap at their suspension points can both write, and later lookups then
observe the last write — see the counterexample.) -/
theorem resolvedIds_memoized_when_sequential (v1 v2 : ResolvedId) :
    (∀ r : ResolvedId, memoTaskStep v2 (some r) .ready = (some r, .done r false)) ∧
    memoRaceRun v1 v2 [true, true, false] memoRaceInit =
      { memo := some v1, task1 := .done v1 true, task2 := .done v1 false } ∧
    memoWrites (memoRaceRun v1 v2 [true, true, false] memoRaceInit) = 1 :=
  ⟨fun _ => rfl, rfl, rfl⟩

/-- C2 counterexample: `"lodash"` is first registered as external instance 0;
the later internal fetch does **not** reuse or reject it — it creates a new
internal instance 1 and re-points the registry entry for `"lodash"` at it,
i.e. a later operation replaces the mapping with a different instance. -/
theorem registry_replaces_external_cex :
    ((stateOf lodashExternalRun).map fun s => alookup s.modulesById "lodash") =
      some (some 0) ∧
    ((stateOf lodashExternalRun).map fun s => isExternalRef s 0) = some true ∧
    valueOf lodashInternalRun = some 1 ∧
    ((stateOf lodashInternalRun).map fun s => alookup s.modulesById "lodash") =
      some (some 1) ∧
    ((stateOf lodashInternalRun).map fun s => isInternalRef s 1) = some true ∧
    ((stateOf lodashInternalRun).map fun s => isExternalRef s 0) = some true := by
  decide

/-! ## Registry preservation infrastructure
The following relations and lemmas establish the loader's structural
invariants: once the registry maps an id to an internal module, every
operation keeps that exact mapping; heap records never change their kind or
their id; and the load/transform logs never repeat an id.  They are proved
for every operation of the embedding by induction over the fuel. -/
theorem alookup_aset_self {α : Type} (l : List (String × α)) (k : String) (v : α) :
    alookup (aset l k v) k = some v := by
  induction l with
  | nil => simp [aset, alookup]
  | cons hd tl ih =>
      by_cases h : hd.1 = k
      · simp [aset, alookup, h]
      · simp [aset, alookup, h, ih]

theorem alookup_aset_ne {α : Type} (l : List (String × α)) (k k2 : String) (v : α)
    (h : k ≠ k2) : alookup (aset l k v) k2 = alookup l k2 := by
  induction l with
  | nil => simp [aset, alookup, h]
  | cons hd tl ih =>
      by_cases h2 : hd.1 = k
      · simp [aset, alookup, h2, h]
      · simp [aset, alookup, h2, ih]

theorem internalAtH_append (heap l : List ModuleRecord) (n : Nat)
    (h : internalAtH heap n = true) : internalAtH (heap ++ l) n = true := by
  unfold internalAtH at *
  cases hn : heap[n]? with
  | none => simp [hn] at h
  | some r =>
      have hlt : n < heap.length := by
        rcases List.getElem?_eq_some.mp hn with ⟨h1, _⟩; exact h1
      have he : (heap ++ l)[n]? = heap[n]? := by
        simp [List.getElem?_append, hlt]
      rw [he, hn]
      rw [hn] at h
      exact h

theorem recIdAt_append (heap l : List ModuleRecord) (n : Nat) (i : String)
    (h : recIdAt heap n = some i) : recIdAt (heap ++ l) n = some i := by
  unfold recIdAt at *
  cases hn : heap[n]? with
  | none => simp [hn] at h
  | some r =>
      have hlt : n < heap.length := by
        rcases List.getElem?_eq_some.mp hn with ⟨h1, _⟩; exact h1
      have he : (heap ++ l)[n]? = heap[n]? := by
        simp [List.getElem?_append, hlt]
      rw [he, hn]
      rw [hn] at h
      exact h

theorem getElem?_set_of_getElem? (heap : List ModuleRecord) (k : Nat)
    (r0 r : ModuleRecord) (hk : heap[k]? = some r0) :
    (heap.set k r)[k]? = some r := by
  have hlt : k < heap.length := by
    rcases List.getElem?_eq_some.mp hk with ⟨h1, _⟩; exact h1
  rw [List.getElem?_set_self]
  simp [hlt]

theorem internalAtH_set (heap : List ModuleRecord) (k n : Nat) (r : ModuleRecord)
    (hr : ∀ m : Module, heap[k]? = some (.internal m) →
      ∃ m' : Module, r = .internal m')
    (h : internalAtH heap n = true) : internalAtH (heap.set k r) n = true := by
  by_cases hkn : k = n
  · subst hkn
    unfold internalAtH at *
    cases hn : heap[k]? with
    | none => simp [hn] at h
    | some r0 =>
        rw [getElem?_set_of_getElem? heap k r0 r hn]
        rw [hn] at h
        cases r0 with
        | internal m =>
            rcases hr m hn with ⟨m', hm'⟩
            simp [hm']
        | external e => simp [internalAtH] at h
  · unfold internalAtH at *
    rw [List.getElem?_set_ne hkn]
    exact h

theorem recIdAt_set (heap : List ModuleRecord) (k n : Nat) (r : ModuleRecord)
    (hr : ∀ r0 : ModuleRecord, heap[k]? = some r0 → r.id = r0.id)
    (i : String) (h : recIdAt heap n = some i) : recIdAt (heap.set k r) n = some i := by
  by_cases hkn : k = n
  · subst hkn
    unfold recIdAt at *
    cases hn : heap[k]? with
    | none => simp [hn] at h
    | some r0 =>
        rw [getElem?_set_of_getElem? heap k r0 r hn]
        rw [hn] at h
        simp only [Option.map] at h ⊢
        rw [hr r0 hn]
        exact h
  · unfold recIdAt at *
    rw [List.getElem?_set_ne hkn]
    exact h

theorem regExt_refl (s : LoaderState) : RegExt s s :=
  ⟨fun _ _ h _ => h, fun _ h => h, fun _ _ h => h⟩

theorem regExt_trans {s1 s2 s3 : LoaderState} (h1 : RegExt s1 s2)
    (h2 : RegExt s2 s3) : RegExt s1 s3 :=
  ⟨fun id ser hm hi => h2.internalMap id ser (h1.internalMap id ser hm hi)
      (h1.internalKept ser hi),
   fun ser hi => h2.internalKept ser (h1.internalKept ser hi),
   fun ser i hi => h2.idKept ser i (h1.idKept ser i hi)⟩

theorem ext_refl (s : LoaderState) : Ext s s :=
  ⟨regExt_refl s, rfl, rfl, rfl⟩

theorem ext_trans {s1 s2 s3 : LoaderState} (h1 : Ext s1 s2) (h2 : Ext s2 s3) :
    Ext s1 s3 :=
  ⟨regExt_trans h1.toRegExt h2.toRegExt, h2.entriesEq.trans h1.entriesEq,
   h2.chunksEq.trans h1.chunksEq, h2.nextIndexEq.trans h1.nextIndexEq⟩

theorem lookupInternal_isSome_of_regExt {s s' : LoaderState} (h : RegExt s s')
    (id : String) (hs : (lookupInternal s id).isSome) :
    (lookupInternal s' id).isSome := by
  unfold lookupInternal at *
  cases hm : alookup s.modulesById id with
  | none => simp [hm] at hs
  | some ser =>
      cases hh : s.heap[ser]? with
      | none => simp [hm, hh] at hs
      | some r =>
          cases r with
          | internal m =>
              have hi : internalAtH s.heap ser = true := by simp [internalAtH, hh]
              rw [h.internalMap id ser hm hi]
              have := h.internalKept ser hi
              unfold internalAtH at this
              cases hh2 : s'.heap[ser]? with
              | none => simp [hh2] at this
              | some r2 =>
                  cases r2 with
                  | internal m2 => simp [hh2]
                  | external e2 => simp [hh2] at this
          | external e => simp [hm, hh] at hs

theorem logInv_of_regExt {s s' : LoaderState} (h : RegExt s s')
    (hl : s'.loadLog = s.loadLog) (ht : s'.transformLog = s.transformLog)
    (hs : logInv s) : logInv s' := by
  refine ⟨⟨hl ▸ hs.1.1, fun id hid => ?_⟩, ⟨ht ▸ hs.2.1, fun id hid => ?_⟩⟩
  · exact lookupInternal_isSome_of_regExt h id (hs.1.2 id (hl ▸ hid))
  · exact lookupInternal_isSome_of_regExt h id (hs.2.2 id (ht ▸ hid))

theorem regExt_of_eq {s s' : LoaderState} (hheap : s'.heap = s.heap)
    (hmap : s'.modulesById = s.modulesById) : RegExt s s' :=
  ⟨fun _ _ hm _ => by rw [hmap]; exact hm,
   fun _ hi => by rw [hheap]; exact hi,
   fun _ _ hi => by rw [hheap]; exact hi⟩

theorem ext_of_eq {s s' : LoaderState} (hheap : s'.heap = s.heap)
    (hmap : s'.modulesById = s.modulesById)
    (hent : s'.indexedEntryModules = s.indexedEntryModules)
    (hchunks : s'.manualChunkModules = s.manualChunkModules)
    (hnext : s'.nextEntryModuleIndex = s.nextEntryModuleIndex) : Ext s s' :=
  ⟨regExt_of_eq hheap hmap, hent, hchunks, hnext⟩

theorem walk_of_benign {α : Type} {op : LoaderM α}
    (h : ∀ s a s', op s = .ok (a, s') →
      s'.heap = s.heap ∧ s'.modulesById = s.modulesById ∧
      s'.indexedEntryModules = s.indexedEntryModules ∧
      s'.manualChunkModules = s.manualChunkModules ∧
      s'.nextEntryModuleIndex = s.nextEntryModuleIndex ∧
      s'.loadLog = s.loadLog ∧ s'.transformLog = s.transformLog) : Walk op := by
  intro s a s' hop
  rcases h s a s' hop with ⟨h1, h2, h3, h4, h5, h6, h7⟩
  exact ⟨ext_of_eq h1 h2 h3 h4 h5,
    fun hv => logInv_of_regExt (regExt_of_eq h1 h2) h6 h7 hv⟩

theorem walk_pure {α : Type} (a : α) : Walk (Pure.pure a : LoaderM α) := by
  intro s b s' h
  simp only [LoaderM.pure_apply] at h
  cases h
  exact ⟨ext_refl s, fun hv => hv⟩

theorem walk_throw {α : Type} (e : Err) : Walk (throwE e : LoaderM α) := by
  intro s b s' h
  simp only [throwE_apply] at h
  cases h

theorem walk_bind {α β : Type} {m : LoaderM α} {f : α → LoaderM β}
    (hm : Walk m) (hf : ∀ a, Walk (f a)) : Walk (m >>= f) := by
  intro s b s' h
  simp only [LoaderM.bind_apply] at h
  cases hms : m s with
  | error e => rw [hms] at h; cases h
  | ok p =>
      rw [hms] at h
      obtain ⟨a, s1⟩ := p
      rcases hm s a s1 hms with ⟨he1, hl1⟩
      rcases hf a s1 b s' h with ⟨he2, hl2⟩
      exact ⟨ext_trans he1 he2, fun hv => hl2 (hl1 hv)⟩

theorem walk_getS : Walk getS := by
  intro s a s' h
  simp only [getS_apply] at h
  cases h
  exact ⟨ext_refl s, fun hv => hv⟩

theorem walk_getRecord (k : Nat) : Walk (getRecord k) := by
  intro s a s' h
  unfold getRecord at h
  split at h
  · cases h; exact ⟨ext_refl _, fun hv => hv⟩
  · cases h

theorem walk_getInternalM (k : Nat) : Walk (getInternalM k) := by
  intro s a s' h
  unfold getInternalM at h
  split at h
  · cases h; exact ⟨ext_refl _, fun hv => hv⟩
  · cases h

theorem walk_warn (w : Warning) : Walk (warn w) := by
  refine walk_of_benign ?_
  intro s a s' h
  simp only [warn, modifyS_apply] at h
  cases h
  exact ⟨rfl, rfl, rfl, rfl, rfl, rfl, rfl⟩

theorem ext_set_internal {s : LoaderState} {k : Nat} {m m' : Module}
    (hk : s.heap[k]? = some (.internal m)) (hid : m'.id = m.id) :
    Ext s { s with heap := s.heap.set k (.internal m') } := by
  refine ⟨⟨fun id ser hm hi => hm, fun ser hi => ?_, fun ser i hi => ?_⟩, rfl, rfl, rfl⟩
  · exact internalAtH_set _ k ser _ (fun _ _ => ⟨m', rfl⟩) hi
  · refine recIdAt_set _ k ser _ (fun r0 hr0 => ?_) i hi
    rw [hk] at hr0
    cases hr0
    simpa [ModuleRecord.id] using hid

/-- A successful `updInternal` means the slot held an internal module and the
state changed only by that one in-place update. -/
theorem updInternal_char {k : Nat} {f : Module → Module} {s s' : LoaderState}
    {a : Unit} (h : updInternal k f s = .ok (a, s')) :
    ∃ m, s.heap[k]? = some (.internal m) ∧
      s' = { s with heap := s.heap.set k (.internal (f m)) } := by
  unfold updInternal getInternalM at h
  simp only [LoaderM.bind_apply] at h
  cases hm : s.heap[k]? with
  | none => rw [hm] at h; cases h
  | some r =>
      rw [hm] at h
      cases r with
      | internal m =>
          simp only [setRecord, modifyS_apply] at h
          cases h
          exact ⟨m, rfl, rfl⟩
      | external e => cases h

theorem walk_updInternal (k : Nat) (f : Module → Module)
    (hf : ∀ m, (f m).id = m.id) : Walk (updInternal k f) := by
  intro s a s' h
  rcases updInternal_char h with ⟨m, hm, rfl⟩
  have hext := ext_set_internal hm (hf m)
  exact ⟨hext, fun hv => logInv_of_regExt hext.toRegExt rfl rfl hv⟩

theorem ext_set_record {s : LoaderState} {k : Nat} {r0 r : ModuleRecord}
    (hk : s.heap[k]? = some r0)
    (hkind : ∀ m : Module, r0 = .internal m → ∃ m', r = .internal m')
    (hid : r.id = r0.id) :
    Ext s { s with heap := s.heap.set k r } := by
  refine ⟨⟨fun id ser hm hi => hm, fun ser hi => ?_, fun ser i hi => ?_⟩, rfl, rfl, rfl⟩
  · refine internalAtH_set _ k ser _ (fun m0 hm0 => ?_) hi
    have h2 := hk.symm.trans hm0
    injection h2 with h3
    exact hkind m0 h3
  · refine recIdAt_set _ k ser _ (fun r1 hr1 => ?_) i hi
    have h2 := hk.symm.trans hr1
    injection h2 with h3
    rw [← h3]
    exact hid

/-- A successful `updRecord` similarly. -/
theorem updRecord_char {k : Nat} {f : ModuleRecord → ModuleRecord}
    {s s' : LoaderState} {a : Unit} (h : updRecord k f s = .ok (a, s')) :
    ∃ r, s.heap[k]? = some r ∧ s' = { s with heap := s.heap.set k (f r) } := by
  unfold updRecord getRecord at h
  simp only [LoaderM.bind_apply] at h
  cases hr : s.heap[k]? with
  | none => rw [hr] at h; cases h
  | some r =>
      rw [hr] at h
      simp only [setRecord, modifyS_apply] at h
      cases h
      exact ⟨r, rfl, rfl⟩

theorem walk_updRecord (k : Nat) (f : ModuleRecord → ModuleRecord)
    (hkind : ∀ m : Module, ∃ m', f (.internal m) = .internal m')
    (hid : ∀ r, (f r).id = r.id) : Walk (updRecord k f) := by
  intro s a s' h
  rcases updRecord_char h with ⟨r, hr, rfl⟩
  have hext := ext_set_record hr (fun m hm => hm ▸ hkind m) (hid r)
  exact ⟨hext, fun hv => logInv_of_regExt hext.toRegExt rfl rfl hv⟩

theorem internalAtH_iff {heap : List ModuleRecord} {n : Nat} :
    internalAtH heap n = true ↔ ∃ m, heap[n]? = some (.internal m) := by
  unfold internalAtH
  cases h : heap[n]? with
  | none => simp
  | some r => cases r <;> simp

theorem lookupInternal_eq {s : LoaderState} {id : String} {ser : Nat} {m : Module}
    (hm : alookup s.modulesById id = some ser)
    (hh : s.heap[ser]? = some (.internal m)) :
    lookupInternal s id = some (ser, m) := by
  simp [lookupInternal, hm, hh]

theorem lookupInternal_none_of_alookup_none {s : LoaderState} {id : String}
    (h : alookup s.modulesById id = none) : lookupInternal s id = none := by
  unfold lookupInternal
  rw [h]

/-- Registering a record under an id that is not mapped to an internal module
extends the state. -/
theorem ext_register {s : LoaderState} {id : String} {r : ModuleRecord}
    {wf : List String} (hguard : lookupInternal s id = none) :
    Ext s
      { s with
        heap := s.heap ++ [r]
        modulesById := aset s.modulesById id s.heap.length
        watchFiles := wf } := by
  refine ⟨⟨fun id0 ser hm hi => ?_, fun ser hi => internalAtH_append _ _ _ hi,
    fun ser i hi => recIdAt_append _ _ _ _ hi⟩, rfl, rfl, rfl⟩
  by_cases hid : id = id0
  · subst hid
    rcases internalAtH_iff.mp hi with ⟨m, hh⟩
    have hsome := lookupInternal_eq hm hh
    rw [hguard] at hsome
    cases hsome
  · rw [alookup_aset_ne _ _ _ _ hid]
    exact hm

theorem walk_handleResolveId (cfg : LoaderConfig) (env : Env)
    (rid : Option ResolvedId) (source importer : String) :
    Walk (handleResolveId cfg env rid source importer) := by
  unfold handleResolveId
  cases rid with
  | none =>
      by_cases h : env.isRelative source = true
      · rw [if_pos h]
        exact walk_throw _
      · rw [if_neg h]
        exact walk_bind (walk_warn _) (fun _ => walk_pure _)
  | some r =>
      refine walk_bind ?_ (fun _ => walk_pure _)
      by_cases h : (r.external && r.syntheticNamedExports) = true
      · rw [if_pos h]
        exact walk_warn _
      · rw [if_neg h]
        exact walk_pure _

theorem walk_memoizedResolve (cfg : LoaderConfig) (env : Env) (serial : Nat)
    (source : String) : Walk (memoizedResolve cfg env serial source) := by
  unfold memoizedResolve
  refine walk_bind (walk_getInternalM serial) (fun m => ?_)
  cases alookup m.resolvedIds source with
  | some r =>
      exact walk_bind (walk_updInternal serial _ (fun _ => rfl)) (fun _ => walk_pure _)
  | none =>
      exact walk_bind (walk_handleResolveId cfg env _ source m.id)
        (fun r => walk_bind (walk_updInternal serial _ (fun _ => rfl))
          (fun _ => walk_pure _))

theorem walk_pushImporter (serial : Nat) (importerId : String) :
    Walk (pushImporter serial importerId) := by
  unfold pushImporter
  refine walk_updRecord serial _ (fun m => ⟨_, rfl⟩) (fun r => ?_)
  cases r <;> rfl

theorem walk_pushDynamicImporter (serial : Nat) (importerId : String) :
    Walk (pushDynamicImporter serial importerId) := by
  unfold pushDynamicImporter
  refine walk_updRecord serial _ (fun m => ⟨_, rfl⟩) (fun r => ?_)
  cases r <;> rfl

theorem walk_setDynResolution (serial : Nat) (i : Nat) (r : DynRes) :
    Walk (setDynResolution serial i r) :=
  walk_updInternal serial _ (fun _ => rfl)

theorem walk_resolveDynamicImportGo (cfg : LoaderConfig) (env : Env) (serial : Nat)
    (specifier : DynArg) (importer : String) (resolution : ResolveIdResult) :
    Walk (resolveDynamicImportGo cfg env serial specifier importer resolution) := by
  cases specifier with
  | node =>
      simp only [resolveDynamicImportGo]
      cases resolution <;> exact walk_pure _
  | lit spec =>
      simp only [resolveDynamicImportGo]
      by_cases h : resolution = ResolveIdResult.nullish
      · rw [if_pos h]
        exact walk_bind (walk_memoizedResolve cfg env serial spec)
          (fun _ => walk_pure _)
      · rw [if_neg h]
        exact walk_bind (walk_handleResolveId cfg env _ spec importer)
          (fun _ => walk_pure _)

theorem walk_resolveDynamicImport (cfg : LoaderConfig) (env : Env) (serial : Nat)
    (specifier : DynArg) (importer : String) :
    Walk (resolveDynamicImport cfg env serial specifier importer) :=
  walk_resolveDynamicImportGo cfg env serial specifier importer _

theorem walk_externalAfterRegister (source importer id : String) :
    Walk (externalAfterRegister source importer id) := by
  unfold externalAfterRegister
  refine walk_bind walk_getS (fun s0 => ?_)
  split
  · split
    · exact walk_pure _
    · exact walk_throw _
  · exact walk_throw _

theorem walk_fetchResolvedDependencyF
    (fetchM : String → Option String → Bool → Bool → Bool → LoaderM Nat)
    (hM : ∀ id imp mse syn ie, Walk (fetchM id imp mse syn ie))
    (source importer : String) (rid : ResolvedId) :
    Walk (fetchResolvedDependencyF fetchM source importer rid) := by
  unfold fetchResolvedDependencyF
  split
  · intro s a s' h
    simp only [LoaderM.bind_apply, getS_apply] at h
    cases hmap : alookup s.modulesById rid.id with
    | none =>
        rw [hmap] at h
        simp only [LoaderM.bind_apply, registerModule_apply] at h
        have hext1 : Ext s
            { s with
              heap := s.heap ++ [.external { id := rid.id, moduleSideEffects := rid.moduleSideEffects }]
              modulesById := aset s.modulesById rid.id s.heap.length } := by
          exact @ext_register s rid.id
            (.external { id := rid.id, moduleSideEffects := rid.moduleSideEffects })
            s.watchFiles (lookupInternal_none_of_alookup_none hmap)
        rcases walk_externalAfterRegister source importer rid.id _ a s' h with ⟨hext2, hl2⟩
        refine ⟨ext_trans hext1 hext2, fun hv => hl2 ?_⟩
        exact logInv_of_regExt hext1.toRegExt rfl rfl hv
    | some ser =>
        rw [hmap] at h
        exact walk_externalAfterRegister source importer rid.id s a s' h
  · exact hM _ _ _ _ _

theorem walk_fetchStaticDeps (cfg : LoaderConfig) (env : Env)
    (fetchM : String → Option String → Bool → Bool → Bool → LoaderM Nat)
    (hM : ∀ id imp mse syn ie, Walk (fetchM id imp mse syn ie))
    (serial : Nat) (moduleId : String) (sources : List String) :
    Walk (fetchStaticDeps cfg env fetchM serial moduleId sources) := by
  induction sources with
  | nil => exact walk_pure _
  | cons source rest ih =>
      unfold fetchStaticDeps
      exact walk_bind (walk_memoizedResolve cfg env serial source)
        (fun rid => walk_bind (walk_fetchResolvedDependencyF fetchM hM source moduleId rid)
          (fun dep => walk_bind (walk_pushImporter dep moduleId) (fun _ => ih)))

theorem walk_fetchDynamicDeps (cfg : LoaderConfig) (env : Env)
    (fetchM : String → Option String → Bool → Bool → Bool → LoaderM Nat)
    (hM : ∀ id imp mse syn ie, Walk (fetchM id imp mse syn ie))
    (serial : Nat) (moduleId : String) (i : Nat) (dyns : List DynamicImport) :
    Walk (fetchDynamicDeps cfg env fetchM serial moduleId i dyns) := by
  induction dyns generalizing i with
  | nil => exact walk_pure _
  | cons dyn rest ih =>
      unfold fetchDynamicDeps
      refine walk_bind (walk_resolveDynamicImport cfg env serial dyn.argument moduleId)
        (fun res => ?_)
      cases res with
      | none => exact ih _
      | some v =>
          cases v with
          | inl str =>
              exact walk_bind (walk_setDynResolution serial i (.str str)) (fun _ => ih _)
          | inr rid =>
              exact walk_bind
                (walk_fetchResolvedDependencyF fetchM hM (env.relativeId rid.id) moduleId rid)
                (fun dep => walk_bind (walk_setDynResolution serial i (.mod dep))
                  (fun _ => walk_bind (walk_pushDynamicImporter dep moduleId)
                    (fun _ => ih _)))

theorem walk_fetchAllDependenciesF (cfg : LoaderConfig) (env : Env)
    (fetchM : String → Option String → Bool → Bool → Bool → LoaderM Nat)
    (hM : ∀ id imp mse syn ie, Walk (fetchM id imp mse syn ie)) (serial : Nat) :
    Walk (fetchAllDependenciesF cfg env fetchM serial) := by
  unfold fetchAllDependenciesF
  exact walk_bind (walk_getInternalM serial)
    (fun m => walk_bind (walk_fetchStaticDeps cfg env fetchM hM serial m.id m.sources)
      (fun _ => walk_fetchDynamicDeps cfg env fetchM hM serial m.id 0 m.dynamicImports))

theorem walk_linkOwnExports (serial : Nat) : Walk (linkOwnExports serial) :=
  walk_updInternal serial _ (fun _ => rfl)

theorem walk_copyExportNames (serial : Nat) (mId depId : String)
    (names : List (String × String)) :
    Walk (copyExportNames serial mId depId names) := by
  induction names with
  | nil => exact walk_pure _
  | cons p rest ih =>
      unfold copyExportNames
      refine walk_bind (walk_getInternalM serial) (fun m => ?_)
      refine walk_bind ?_ (fun _ => ih)
      by_cases h : (alookup m.exportsAll p.1).isSome = true
      · rw [if_pos h]
        exact walk_warn _
      · rw [if_neg h]
        exact walk_updInternal serial _ (fun _ => rfl)

theorem walk_linkOneExportSource (serial : Nat) (source : String) :
    Walk (linkOneExportSource serial source) := by
  unfold linkOneExportSource
  refine walk_bind (walk_getInternalM serial) (fun m => ?_)
  split
  · exact walk_throw _
  · refine walk_bind walk_getS (fun s0 => ?_)
    split
    · exact walk_throw _
    · split
      · exact walk_throw _
      · exact walk_pure _
      · exact walk_copyExportNames serial m.id _ _

theorem walk_linkExportSources (serial : Nat) (sources : List String) :
    Walk (linkExportSources serial sources) := by
  induction sources with
  | nil => exact walk_pure _
  | cons source rest ih =>
      unfold linkExportSources
      exact walk_bind (walk_linkOneExportSource serial source) (fun _ => ih)

theorem walk_linkModuleExports (serial : Nat) : Walk (linkModuleExports serial) := by
  unfold linkModuleExports
  exact walk_bind (walk_linkOwnExports serial)
    (fun _ => walk_bind (walk_getInternalM serial)
      (fun m => walk_linkExportSources serial m.exportAllSources))

theorem mergeFlags_id (desc : SourceDescription) (m : Module) :
    (mergeFlags desc m).id = m.id := by
  unfold mergeFlags
  cases desc.moduleSideEffects <;> cases desc.syntheticNamedExports <;> rfl

theorem installBody_id (body : ParsedBody) (m : Module) :
    (installBody body m).id = m.id := rfl

/-- A successful `transformAndSet` updates the module in place (preserving
its id) and appends the id to the transform log; nothing else changes. -/
theorem transformAndSet_char {env : Env} {id : String} {desc : SourceDescription}
    {k : Nat} {s s' : LoaderState} {a : Unit}
    (h : transformAndSet env id desc k s = .ok (a, s')) :
    ∃ m m', s.heap[k]? = some (.internal m) ∧ m'.id = m.id ∧
      s' = { s with
        heap := s.heap.set k (.internal m')
        transformLog := s.transformLog ++ [id] } := by
  unfold transformAndSet at h
  simp only [LoaderM.bind_apply] at h
  cases hu : updInternal k (mergeFlags desc) s with
  | error e => rw [hu] at h; cases h
  | ok p =>
      obtain ⟨u, s1⟩ := p
      rw [hu] at h
      rcases updInternal_char hu with ⟨m, hm, h1⟩
      subst h1
      simp only [modifyS_apply] at h
      unfold setSource at h
      rcases updInternal_char h with ⟨m2, hm2, h2⟩
      subst h2
      have hm2' : m2 = mergeFlags desc m := by
        have hset := getElem?_set_of_getElem? s.heap k (.internal m)
          (.internal (mergeFlags desc m)) hm
        have h5 : (s.heap.set k (ModuleRecord.internal (mergeFlags desc m)))[k]? =
            some (ModuleRecord.internal m2) := hm2
        rw [hset] at h5
        injection h5 with h6
        injection h6 with h7
        exact h7.symm
      subst hm2'
      refine ⟨m, installBody (env.transform id desc) (mergeFlags desc m), hm, ?_, ?_⟩
      · rw [installBody_id, mergeFlags_id]
      · simp [List.set_set]

theorem applyCachedOrTransform_char {env : Env} {id : String}
    {desc : SourceDescription} {k : Nat} {s s' : LoaderState} {a : Unit}
    (h : applyCachedOrTransform env id desc k s = .ok (a, s')) :
    ∃ m m' tl el, s.heap[k]? = some (.internal m) ∧ m'.id = m.id ∧
      (tl = ([] : List String) ∨ tl = [id]) ∧
      s' = { s with
        heap := s.heap.set k (.internal m')
        transformLog := s.transformLog ++ tl
        emitLog := s.emitLog ++ el } := by
  unfold applyCachedOrTransform at h
  cases hc : env.cachedModules id with
  | none =>
      rw [hc] at h
      simp only [] at h
      rcases transformAndSet_char h with ⟨m, m', hm, hid, h1⟩
      refine ⟨m, m', [id], [], hm, hid, Or.inr rfl, ?_⟩
      rw [h1]; simp
  | some cached =>
      rw [hc] at h
      simp only [] at h
      by_cases hcond :
          (!cached.customTransformCache && some cached.originalCode == desc.code) = true
      · rw [if_pos hcond] at h
        simp only [LoaderM.bind_apply, modifyS_apply] at h
        unfold setSource at h
        rcases updInternal_char h with ⟨m, hm, h1⟩
        refine ⟨m, installBody cached.body m, [], cached.transformFiles, hm,
          installBody_id _ _, Or.inl rfl, ?_⟩
        rw [h1]; simp
      · rw [if_neg hcond] at h
        rcases transformAndSet_char h with ⟨m, m', hm, hid, h1⟩
        refine ⟨m, m', [id], [], hm, hid, Or.inr rfl, ?_⟩
        rw [h1]; simp

theorem addModuleSource_char {env : Env} {id : String} {imp : Option String}
    {k : Nat} {s s' : LoaderState} {a : Unit}
    (h : addModuleSource env id imp k s = .ok (a, s')) :
    ∃ m m' tl el, s.heap[k]? = some (.internal m) ∧ m'.id = m.id ∧
      (tl = ([] : List String) ∨ tl = [id]) ∧
      s' = { s with
        heap := s.heap.set k (.internal m')
        loadLog := s.loadLog ++ [id]
        transformLog := s.transformLog ++ tl
        emitLog := s.emitLog ++ el } := by
  unfold addModuleSource at h
  simp only [LoaderM.bind_apply, modifyS_apply] at h
  cases hls : loadSource env id imp with
  | error e =>
      rw [hls] at h
      simp only [] at h
      simp [throwE] at h
  | ok source =>
      rw [hls] at h
      simp only [] at h
      cases hcs : coerceSource id source with
      | error e =>
          rw [hcs] at h
          simp only [] at h
          simp [throwE] at h
      | ok desc =>
          rw [hcs] at h
          simp only [] at h
          rcases applyCachedOrTransform_char h with ⟨m, m', tl, el, hm, hid, htl, h1⟩
          refine ⟨m, m', tl, el, hm, hid, htl, ?_⟩
          rw [h1]

theorem regExt_heap_set_internal {s : LoaderState} {k : Nat} {m m' : Module}
    (hm : s.heap[k]? = some (.internal m)) (hid : m'.id = m.id)
    {s' : LoaderState} (hheap : s'.heap = s.heap.set k (.internal m'))
    (hmap : s'.modulesById = s.modulesById) : RegExt s s' := by
  refine ⟨fun id0 ser hm0 _ => by rw [hmap]; exact hm0, fun ser hi => ?_,
    fun ser i hi => ?_⟩
  · rw [hheap]
    exact internalAtH_set _ k ser _ (fun _ _ => ⟨m', rfl⟩) hi
  · rw [hheap]
    refine recIdAt_set _ k ser _ (fun r0 hr0 => ?_) i hi
    have h2 := hm.symm.trans hr0
    injection h2 with h3
    rw [← h3]
    simpa [ModuleRecord.id] using hid

theorem addModuleSource_walk {env : Env} {id : String} {imp : Option String}
    {k : Nat} (s : LoaderState) (a : Unit) (s' : LoaderState)
    (h : addModuleSource env id imp k s = .ok (a, s')) :
    Ext s s' ∧
      (logInv s → (lookupInternal s id).isSome → id ∉ s.loadLog →
        id ∉ s.transformLog → logInv s') := by
  rcases addModuleSource_char h with ⟨m, m', tl, el, hm, hid, htl, rfl⟩
  have hreg : RegExt s
      { s with
        heap := s.heap.set k (.internal m')
        loadLog := s.loadLog ++ [id]
        transformLog := s.transformLog ++ tl
        emitLog := s.emitLog ++ el } :=
    regExt_heap_set_internal hm hid rfl rfl
  refine ⟨⟨hreg, rfl, rfl, rfl⟩, fun hv hsome hnl hnt => ?_⟩
  refine ⟨⟨?_, fun x hx => ?_⟩, ⟨?_, fun x hx => ?_⟩⟩
  · simp only [List.nodup_append, List.nodup_cons, List.nodup_nil]
    exact ⟨hv.1.1, by simp, by simpa [List.disjoint_singleton] using hnl⟩
  · rcases List.mem_append.mp hx with hx1 | hx2
    · exact lookupInternal_isSome_of_regExt hreg x (hv.1.2 x hx1)
    · have hxid : x = id := by simpa using hx2
      subst hxid
      exact lookupInternal_isSome_of_regExt hreg x hsome
  · rcases htl with h1 | h1 <;> subst h1
    · simpa using hv.2.1
    · simp only [List.nodup_append, List.nodup_cons, List.nodup_nil]
      exact ⟨hv.2.1, by simp, by simpa [List.disjoint_singleton] using hnt⟩
  · rcases htl with h1 | h1 <;> subst h1
    · have hx1 : x ∈ s.transformLog := by simpa using hx
      exact lookupInternal_isSome_of_regExt hreg x (hv.2.2 x hx1)
    · rcases List.mem_append.mp hx with hx1 | hx2
      · exact lookupInternal_isSome_of_regExt hreg x (hv.2.2 x hx1)
      · have hxid : x = id := by simpa using hx2
        subst hxid
        exact lookupInternal_isSome_of_regExt hreg x hsome

theorem fetchModuleRest_walk (cfg : LoaderConfig) (env : Env)
    (fetchM : String → Option String → Bool → Bool → Bool → LoaderM Nat)
    (hM : ∀ id imp mse syn ie, Walk (fetchM id imp mse syn ie))
    (id : String) (imp : Option String) (k : Nat) (s : LoaderState) (a : Nat)
    (s' : LoaderState) (h : fetchModuleRest cfg env fetchM id imp k s = .ok (a, s')) :
    Ext s s' ∧
      (logInv s → (lookupInternal s id).isSome → id ∉ s.loadLog →
        id ∉ s.transformLog → logInv s') := by
  unfold fetchModuleRest at h
  simp only [LoaderM.bind_apply] at h
  cases h1 : addModuleSource env id imp k s with
  | error e => rw [h1] at h; simp only [] at h; cases h
  | ok p =>
      obtain ⟨u1, s1⟩ := p
      rw [h1] at h
      simp only [] at h
      cases h2 : fetchAllDependenciesF cfg env fetchM k s1 with
      | error e => rw [h2] at h; simp only [] at h; cases h
      | ok p2 =>
          obtain ⟨u2, s2⟩ := p2
          rw [h2] at h
          simp only [] at h
          cases h3 : linkModuleExports k s2 with
          | error e => rw [h3] at h; simp only [] at h; cases h
          | ok p3 =>
              obtain ⟨u3, s3⟩ := p3
              rw [h3] at h
              simp only [LoaderM.pure_apply] at h
              cases h
              rcases addModuleSource_walk s u1 s1 h1 with ⟨he1, hl1⟩
              rcases walk_fetchAllDependenciesF cfg env fetchM hM k s1 u2 s2 h2 with
                ⟨he2, hl2⟩
              rcases walk_linkModuleExports k s2 u3 s' h3 with ⟨he3, hl3⟩
              exact ⟨ext_trans (ext_trans he1 he2) he3,
                fun hv hsome hnl hnt => hl3 (hl2 (hl1 hv hsome hnl hnt))⟩

theorem lookupInternal_some_inv {s : LoaderState} {id : String} {ser : Nat}
    {m : Module} (h : lookupInternal s id = some (ser, m)) :
    alookup s.modulesById id = some ser ∧ s.heap[ser]? = some (.internal m) := by
  unfold lookupInternal at h
  cases hm : alookup s.modulesById id with
  | none => rw [hm] at h; cases h
  | some ser2 =>
      rw [hm] at h
      simp only [] at h
      cases hh : s.heap[ser2]? with
      | none => rw [hh] at h; simp only [] at h; cases h
      | some r =>
          rw [hh] at h
          cases r with
          | internal m2 =>
              simp only [Option.some.injEq, Prod.mk.injEq] at h
              obtain ⟨h2, h3⟩ := h
              subst h2
              subst h3
              exact ⟨rfl, hh⟩
          | external e => cases h

theorem lookupInternal_registeredState (s : LoaderState) (id : String)
    (mse syn ie : Bool) :
    lookupInternal (registeredState s id mse syn ie) id =
      some (s.heap.length, newModule id mse syn ie) := by
  unfold registeredState
  refine lookupInternal_eq ?_ ?_
  · exact alookup_aset_self _ _ _
  · exact List.getElem?_concat_length _ _

theorem walk_fetchModuleGo (cfg : LoaderConfig) (env : Env)
    (fetchM : String → Option String → Bool → Bool → Bool → LoaderM Nat)
    (hM : ∀ id imp mse syn ie, Walk (fetchM id imp mse syn ie))
    (id : String) (imp : Option String) (mse syn ie : Bool) :
    Walk (fetchModuleGo cfg env fetchM id imp mse syn ie) := by
  intro s a s' h
  unfold fetchModuleGo at h
  cases hL : lookupInternal s id with
  | some p =>
      obtain ⟨ser, m⟩ := p
      rw [hL] at h
      cases h
      have hsm := lookupInternal_some_inv hL
      have hext := ext_set_internal hsm.2
        (rfl : ({ m with isEntryPoint := m.isEntryPoint || ie } : Module).id = m.id)
      exact ⟨hext, fun hv => logInv_of_regExt hext.toRegExt rfl rfl hv⟩
  | none =>
      rw [hL] at h
      have hreg : Ext s (registeredState s id mse syn ie) := by
        unfold registeredState
        exact ext_register hL
      rcases fetchModuleRest_walk cfg env fetchM hM id imp s.heap.length _ a s' h with
        ⟨he2, hl2⟩
      refine ⟨ext_trans hreg he2, fun hv => ?_⟩
      have hv1 : logInv (registeredState s id mse syn ie) :=
        logInv_of_regExt hreg.toRegExt rfl rfl hv
      have hsome : (lookupInternal (registeredState s id mse syn ie) id).isSome := by
        rw [lookupInternal_registeredState]
        rfl
      have hnl : id ∉ (registeredState s id mse syn ie).loadLog := by
        intro hmem
        have h2 := hv.1.2 id hmem
        rw [hL] at h2
        simp at h2
      have hnt : id ∉ (registeredState s id mse syn ie).transformLog := by
        intro hmem
        have h2 := hv.2.2 id hmem
        rw [hL] at h2
        simp at h2
      exact hl2 hv1 hsome hnl hnt

theorem walk_fetchModule (cfg : LoaderConfig) (env : Env) (fuel : Nat) :
    ∀ id imp mse syn ie, Walk (fetchModule cfg env fuel id imp mse syn ie) := by
  induction fuel with
  | zero => intro id imp mse syn ie; exact walk_throw _
  | succ n ih =>
      intro id imp mse syn ie
      exact walk_fetchModuleGo cfg env (fetchModule cfg env n) ih id imp mse syn ie

theorem walk_loadEntryModule (cfg : LoaderConfig) (env : Env) (fuel : Nat)
    (unresolvedId : String) (isEntry : Bool) (importer : Option String) :
    Walk (loadEntryModule cfg env fuel unresolvedId isEntry importer) := by
  intro s a s' h
  unfold loadEntryModule at h
  cases hr : resolveEntryId unresolvedId
      (env.utilResolveId unresolvedId importer cfg.preserveSymlinks none) with
  | error e => rw [hr] at h; cases h
  | ok id =>
      rw [hr] at h
      exact walk_fetchModule cfg env fuel id none true false isEntry s a s' h

theorem walk_loadEntries (cfg : LoaderConfig) (env : Env) (fuel : Nat)
    (us : List UnresolvedModule) : Walk (loadEntries cfg env fuel us) := by
  induction us with
  | nil => exact walk_pure _
  | cons u rest ih =>
      unfold loadEntries
      exact walk_bind (walk_loadEntryModule cfg env fuel u.id true u.importer)
        (fun ser => walk_bind ih (fun sers => walk_pure _))

theorem walk_loadManualChunkModules (cfg : LoaderConfig) (env : Env) (fuel : Nat)
    (pairs : List (String × String)) :
    Walk (loadManualChunkModules cfg env fuel pairs) := by
  induction pairs with
  | nil => exact walk_pure _
  | cons p rest ih =>
      unfold loadManualChunkModules
      exact walk_bind (walk_loadEntryModule cfg env fuel p.2 false none)
        (fun ser => walk_bind ih (fun sers => walk_pure _))

/-! ## Claim C1: `fetchModule` loads and parses at most once per id -/
/-- C1: (i) if the registry already holds an internal module under `id`,
`fetchModule` returns exactly that module (same reference), updating only
`isEntryPoint` to `isEntryPoint || isEntry` — no load hook, no filesystem
read, no transform, no warning, no registry change; (ii) on a miss, the new
module is registered (and watched) in the synchronous prefix, i.e. in the
state where the first suspending operation (`addModuleSource`) starts, so
any concurrent caller for the same id observes the registration and takes
the hit path (i); and (iii) across any successful `fetchModule` run from a
state whose logs satisfy the log invariant, the load log and the transform
log never repeat an id: the body is loaded and transformed at most once per
id regardless of fan-out. -/
theorem fetchModule_loads_at_most_once (cfg : LoaderConfig) (env : Env)
    (fuel : Nat) (id : String) (importer : Option String)
    (mse syn isEntry : Bool) (s : LoaderState) :
    (∀ serial m, alookup s.modulesById id = some serial →
      s.heap[serial]? = some (.internal m) →
      fetchModule cfg env (fuel + 1) id importer mse syn isEntry s =
        .ok (serial,
          { s with
            heap := s.heap.set serial
              (.internal { m with isEntryPoint := m.isEntryPoint || isEntry }) })) ∧
    (lookupInternal s id = none →
      fetchModule cfg env (fuel + 1) id importer mse syn isEntry s =
        fetchModuleRest cfg env (fetchModule cfg env fuel) id importer
          s.heap.length (registeredState s id mse syn isEntry) ∧
      lookupInternal (registeredState s id mse syn isEntry) id =
        some (s.heap.length, newModule id mse syn isEntry)) ∧
    (∀ r s', fetchModule cfg env (fuel + 1) id importer mse syn isEntry s =
        .ok (r, s') → logInv s →
      s'.loadLog.Nodup ∧ s'.transformLog.Nodup) := by
  refine ⟨fun serial m hmap hheap => ?_, fun hnone => ⟨?_, ?_⟩,
    fun r s' hrun hinv => ?_⟩
  · show fetchModuleGo cfg env (fetchModule cfg env fuel) id importer mse syn isEntry s = _
    unfold fetchModuleGo
    rw [lookupInternal_eq hmap hheap]
  · show fetchModuleGo cfg env (fetchModule cfg env fuel) id importer mse syn isEntry s = _
    unfold fetchModuleGo
    rw [hnone]
  · exact lookupInternal_registeredState s id mse syn isEntry
  · rcases walk_fetchModule cfg env (fuel + 1) id importer mse syn isEntry s r s' hrun
      with ⟨_, hlog⟩
    have hv := hlog hinv
    exact ⟨hv.1.1, hv.2.1⟩

theorem regWalk_of_walk {α : Type} {op : LoaderM α} (h : Walk op) : RegWalk op :=
  fun s a s' hop => ((h s a s' hop).1).toRegExt

theorem regWalk_pure {α : Type} (a : α) : RegWalk (Pure.pure a : LoaderM α) :=
  regWalk_of_walk (walk_pure a)

theorem regWalk_throw {α : Type} (e : Err) : RegWalk (throwE e : LoaderM α) :=
  regWalk_of_walk (walk_throw e)

theorem regWalk_bind {α β : Type} {m : LoaderM α} {f : α → LoaderM β}
    (hm : RegWalk m) (hf : ∀ a, RegWalk (f a)) : RegWalk (m >>= f) := by
  intro s b s' h
  simp only [LoaderM.bind_apply] at h
  cases hms : m s with
  | error e => rw [hms] at h; cases h
  | ok p =>
      rw [hms] at h
      obtain ⟨a, s1⟩ := p
      exact regExt_trans (hm s a s1 hms) (hf a s1 b s' h)

theorem regWalk_getS : RegWalk getS := regWalk_of_walk walk_getS

theorem walk_applyEntryNaming (u : UnresolvedModule) (isUserDefined : Bool)
    (serial : Nat) : Walk (applyEntryNaming u isUserDefined serial) := by
  unfold applyEntryNaming
  refine walk_bind (walk_updInternal serial _ (fun _ => rfl)) (fun _ => ?_)
  cases u.fileName with
  | some f => exact walk_updInternal serial _ (fun _ => rfl)
  | none =>
      cases u.name with
      | some n =>
          refine walk_bind ?_ (fun _ => ?_)
          · refine walk_updInternal serial _ (fun m => ?_)
            by_cases hc : m.chunkName = none
            · rw [if_pos hc]
            · rw [if_neg hc]
          · by_cases hu : isUserDefined = true
            · rw [if_pos hu]
              exact walk_updInternal serial _ (fun _ => rfl)
            · rw [if_neg hu]
              exact walk_pure _
      | none => exact walk_pure _

theorem regWalk_indexEntries (isUserDefined : Bool)
    (pairs : List (UnresolvedModule × Nat)) :
    ∀ moduleIndex, RegWalk (indexEntries isUserDefined pairs moduleIndex) := by
  induction pairs with
  | nil => intro i; exact regWalk_pure _
  | cons p rest ih =>
      intro i
      obtain ⟨u, serial⟩ := p
      unfold indexEntries
      refine regWalk_bind (regWalk_of_walk (walk_applyEntryNaming u isUserDefined serial))
        (fun _ => regWalk_bind regWalk_getS (fun s0 => regWalk_bind ?_ (fun _ => ih _)))
      cases recIdAt s0.heap serial with
      | none => exact regWalk_throw _
      | some entryId =>
          intro s a s' h
          simp only [modifyS_apply] at h
          cases h
          exact regExt_of_eq rfl rfl

theorem regWalk_addEntryModules (cfg : LoaderConfig) (env : Env) (fuel : Nat)
    (us : List UnresolvedModule) (isUserDefined : Bool) :
    RegWalk (addEntryModules cfg env fuel us isUserDefined) := by
  unfold addEntryModules
  refine regWalk_bind regWalk_getS (fun s0 => ?_)
  refine regWalk_bind ?_ (fun _ => ?_)
  · intro s a s' h
    simp only [modifyS_apply] at h
    cases h
    exact regExt_of_eq rfl rfl
  · refine regWalk_bind (regWalk_of_walk (walk_loadEntries cfg env fuel us))
      (fun serials => ?_)
    refine regWalk_bind (regWalk_indexEntries isUserDefined _ _) (fun _ => ?_)
    refine regWalk_bind ?_
      (fun _ => regWalk_bind regWalk_getS (fun s1 => regWalk_pure _))
    intro s a s' h
    simp only [modifyS_apply] at h
    cases h
    exact regExt_of_eq rfl rfl

theorem regWalk_assignChunk (aliasName : String) (serial : Nat) :
    RegWalk (assignChunk aliasName serial) := by
  unfold assignChunk
  refine regWalk_bind
    (regWalk_of_walk (walk_updInternal serial _ (fun _ => rfl))) (fun _ => ?_)
  intro s a s' h
  simp only [modifyS_apply] at h
  cases h
  exact regExt_of_eq rfl rfl

theorem regWalk_addModuleToManualChunk (aliasName : String) (serial : Nat) :
    RegWalk (addModuleToManualChunk aliasName serial) := by
  unfold addModuleToManualChunk
  refine regWalk_bind (regWalk_of_walk (walk_getInternalM serial)) (fun m => ?_)
  cases m.manualChunkAlias with
  | some existing =>
      simp only []
      by_cases hc : existing ≠ aliasName
      · rw [if_pos hc]
        exact regWalk_throw _
      · rw [if_neg hc]
        exact regWalk_assignChunk aliasName serial
  | none =>
      simp only []
      exact regWalk_assignChunk aliasName serial

theorem regWalk_assignLoadedChunks (pairs : List (String × Nat)) :
    RegWalk (assignLoadedChunks pairs) := by
  induction pairs with
  | nil => exact regWalk_pure _
  | cons p rest ih =>
      unfold assignLoadedChunks
      exact regWalk_bind (regWalk_addModuleToManualChunk p.1 p.2) (fun _ => ih)

theorem regWalk_addManualChunks (cfg : LoaderConfig) (env : Env) (fuel : Nat)
    (chunks : List (String × List String)) :
    RegWalk (addManualChunks cfg env fuel chunks) := by
  unfold addManualChunks
  exact regWalk_bind
    (regWalk_of_walk (walk_loadManualChunkModules cfg env fuel _))
    (fun loaded => regWalk_assignLoadedChunks loaded)

theorem regWalk_assignManualChunksGo (fn : String → Option String)
    (entries : List (String × Nat)) :
    RegWalk (assignManualChunksGo fn entries) := by
  induction entries with
  | nil => exact regWalk_pure _
  | cons p rest ih =>
      obtain ⟨id0, serial⟩ := p
      unfold assignManualChunksGo
      refine regWalk_bind regWalk_getS (fun s0 => ?_)
      cases s0.heap[serial]? with
      | some r =>
          cases r with
          | internal m =>
              simp only []
              cases fn m.id with
              | some aliasName =>
                  exact regWalk_bind (regWalk_addModuleToManualChunk aliasName serial)
                    (fun _ => ih)
              | none => exact ih
          | external e =>
              simp only []
              exact ih
      | none =>
          simp only []
          exact ih

theorem regWalk_assignManualChunks (fn : String → Option String) :
    RegWalk (assignManualChunks fn) := by
  unfold assignManualChunks
  exact regWalk_bind regWalk_getS (fun s0 => regWalk_assignManualChunksGo fn _)

/-! ## Claim C2 (amended theorem) -/
/-- C2 amended: once the registry maps an id to an **internal** module, every
operation — `fetchModule`, `fetchResolvedDependency`, `addEntryModules`,
`addManualChunks`, `assignManualChunks` — keeps exactly that mapping: the
same serial, still an internal module.  (An id mapped to an *external*
record enjoys no such stability: the counterexample shows `fetchModule`
replacing it with a fresh internal instance.) -/
theorem registry_internal_mapping_stable (cfg : LoaderConfig) (env : Env)
    (fuel : Nat) (s s' : LoaderState) (idX : String) (serX : Nat)
    (hmap : alookup s.modulesById idX = some serX)
    (hint : internalAtH s.heap serX = true) :
    (∀ id imp mse syn ie r,
      fetchModule cfg env fuel id imp mse syn ie s = .ok (r, s') →
      alookup s'.modulesById idX = some serX ∧ internalAtH s'.heap serX = true) ∧
    (∀ src imp rid r,
      fetchResolvedDependencyF (fetchModule cfg env fuel) src imp rid s = .ok (r, s') →
      alookup s'.modulesById idX = some serX ∧ internalAtH s'.heap serX = true) ∧
    (∀ us b res,
      addEntryModules cfg env fuel us b s = .ok (res, s') →
      alookup s'.modulesById idX = some serX ∧ internalAtH s'.heap serX = true) ∧
    (∀ chunks r,
      addManualChunks cfg env fuel chunks s = .ok (r, s') →
      alookup s'.modulesById idX = some serX ∧ internalAtH s'.heap serX = true) ∧
    (∀ fn r,
      assignManualChunks fn s = .ok (r, s') →
      alookup s'.modulesById idX = some serX ∧ internalAtH s'.heap serX = true) := by
  have conc : ∀ (hreg : RegExt s s'),
      alookup s'.modulesById idX = some serX ∧ internalAtH s'.heap serX = true :=
    fun hreg => ⟨hreg.internalMap idX serX hmap hint, hreg.internalKept serX hint⟩
  refine ⟨fun id imp mse syn ie r h => conc ?_,
    fun src imp rid r h => conc ?_,
    fun us b res h => conc ?_,
    fun chunks r h => conc ?_,
    fun fn r h => conc ?_⟩
  · exact (regWalk_of_walk (walk_fetchModule cfg env fuel id imp mse syn ie)) s r s' h
  · exact (regWalk_of_walk
      (walk_fetchResolvedDependencyF (fetchModule cfg env fuel)
        (walk_fetchModule cfg env fuel) src imp rid)) s r s' h
  · exact regWalk_addEntryModules cfg env fuel us b s res s' h
  · exact regWalk_addManualChunks cfg env fuel chunks s r s' h
  · exact regWalk_assignManualChunks fn s r s' h

/-- Witness for `registry_internal_mapping_stable`: with `"/m"` registered as
internal module 0, fetching the fresh id `"/m2"` keeps `"/m"` mapped to the
same instance. -/
theorem registry_internal_mapping_stable_witness :
    alookup
      (match fetchModule cfgNone envSelf 1 "/m2" none true false true fmTestState with
       | .ok (_, s2) => s2.modulesById
       | .error _ => []) "/m" = some 0 :=
  ((registry_internal_mapping_stable cfgNone envSelf 1 fmTestState
      { fmTestState with
        heap := fmTestState.heap ++ [.internal (newModule "/m2" true false true)]
        modulesById := aset fmTestState.modulesById "/m2" 1
        watchFiles := ["/m2"]
        loadLog := ["/m2"]
        transformLog := ["/m2"] }
      "/m" 0 rfl rfl).1 "/m2" none true false true 1 (by rfl)).1

/-! ## Claim C10: entry resolution bypasses the configured policies -/
/-- C10: when the plugin/built-in pipeline resolves an entry to a plain id,
(i) `loadEntryModule` proceeds straight to `fetchModule` — even under the
hypothesis that the id matches the configured `external` matcher, no
`ENTRY_CANNOT_BE_EXTERNAL` error is raised, so the entry loads as internal;
(ii) on a fresh id the registered entry module is constructed with
`moduleSideEffects = true` and `syntheticNamedExports = false`, ignoring the
side-effect policy; and (iii) by contrast the loader's own `resolveId`
method on a specifier the matcher accepts short-circuits to an external
resolution — the method `loadEntryModule` deliberately does not use. -/
theorem loadEntryModule_bypasses_policies (cfg : LoaderConfig) (env : Env)
    (fuel : Nat) (uid id : String) (isEntry : Bool) (imp : Option String)
    (s : LoaderState)
    (hres : env.utilResolveId uid imp cfg.preserveSymlinks none = .str id)
    (_hext : cfg.isExternal id imp true = true) :
    (loadEntryModule cfg env fuel uid isEntry imp s =
      fetchModule cfg env fuel id none true false isEntry s) ∧
    (lookupInternal s id = none →
      loadEntryModule cfg env (fuel + 1) uid isEntry imp s =
        fetchModuleRest cfg env (fetchModule cfg env fuel) id none s.heap.length
          (registeredState s id true false isEntry) ∧
      (registeredState s id true false isEntry).heap[s.heap.length]? =
        some (.internal (newModule id true false isEntry)) ∧
      (newModule id true false isEntry).moduleSideEffects = true ∧
      (newModule id true false isEntry).syntheticNamedExports = false) ∧
    (cfg.isExternal uid imp false = true →
      resolveIdMethod cfg env uid imp none =
        normalizeFalsyResolveId cfg env true imp uid) := by
  have heq : ∀ f, loadEntryModule cfg env f uid isEntry imp s =
      fetchModule cfg env f id none true false isEntry s := by
    intro f
    unfold loadEntryModule
    rw [hres]
    rfl
  refine ⟨heq fuel, fun hnone => ⟨?_, ?_, rfl, rfl⟩, fun hraw => ?_⟩
  · rw [heq (fuel + 1)]
    show fetchModuleGo cfg env (fetchModule cfg env fuel) id none true false isEntry s = _
    unfold fetchModuleGo
    rw [hnone]
  · unfold registeredState
    exact List.getElem?_concat_length _ _
  · simp [resolveIdMethod, hraw, normalizeResolveIdResult]

/-- Witness for `loadEntryModule_bypasses_policies`: with every id declared
external by configuration, the entry `"lodash"` still reaches `fetchModule`
as internal, while the loader's `resolveId` method marks the same specifier
external. -/
theorem loadEntryModule_bypasses_policies_witness :
    loadEntryModule cfgAllExternal envSelf 1 "lodash" true none initState =
      fetchModule cfgAllExternal envSelf 1 "lodash" none true false true initState ∧
    resolveIdMethod cfgAllExternal envSelf "lodash" none none =
      normalizeFalsyResolveId cfgAllExternal envSelf true none "lodash" :=
  ⟨(loadEntryModule_bypasses_policies cfgAllExternal envSelf 1 "lodash" "lodash"
      true none initState rfl rfl).1,
   (loadEntryModule_bypasses_policies cfgAllExternal envSelf 1 "lodash" "lodash"
      true none initState rfl rfl).2.2 rfl⟩

/-- Witness for `fetchModule_loads_at_most_once`: on a registry already
holding `"/m"`, the hit path returns module 0 with only `isEntryPoint`
updated; and a fresh fetch of `"/m2"` from the empty state leaves load and
transform logs without repetitions. -/
theorem fetchModule_loads_at_most_once_witness :
    fetchModule cfgNone envSelf 1 "/m" none true false true fmTestState =
      .ok (0,
        { fmTestState with
          heap := fmTestState.heap.set 0
            (.internal { newModule "/m" true false false with isEntryPoint := true }) }) ∧
    (fmRunState.loadLog.Nodup ∧ fmRunState.transformLog.Nodup) :=
  ⟨(fetchModule_loads_at_most_once cfgNone envSelf 0 "/m" none true false true
      fmTestState).1 0 (newModule "/m" true false false) rfl rfl,
   (fetchModule_loads_at_most_once cfgNone envSelf 0 "/m2" none true false true
      initState).2.2 0 fmRunState (by rfl)
      (by simp [logInv, initState, lookupInternal])⟩

/-- C8 counterexample: the follow-up `assignManualChunks` raises no error and
leaves the module's alias at `"a"`, but it does **not** leave the loader
state unchanged: the module is pushed onto `manualChunkModules["a"]` a second
time, so the composition is not a no-op. -/
theorem manual_chunk_reassign_not_noop_cex :
    ((stateOf manualChunkRun1).map fun s => s.manualChunkModules) =
      some [("a", [0])] ∧
    aliasAt0 manualChunkRun1 = some (some "a") ∧
    ((stateOf manualChunkRun2).map fun s => s.manualChunkModules) =
      some [("a", [0, 0])] ∧
    aliasAt0 manualChunkRun2 = some (some "a") ∧
    ((stateOf manualChunkRun2).map fun s => s.manualChunkModules) ≠
      ((stateOf manualChunkRun1).map fun s => s.manualChunkModules) := by
  decide

/-! ## Claim C6: the export linker -/
theorem getInternalM_eq {s : LoaderState} {serial : Nat} {m : Module}
    (hm : s.heap[serial]? = some (.internal m)) :
    getInternalM serial s = .ok (m, s) := by
  unfold getInternalM
  rw [hm]

theorem ownExportsFold_preserve_mid (mid : String) :
    ∀ (E : List String) (acc : List (String × String)) (name : String),
      alookup acc name = some mid →
      alookup (ownExportsFold mid E acc) name = some mid := by
  intro E
  induction E with
  | nil => intro acc name h; exact h
  | cons n rest ih =>
      intro acc name h
      unfold ownExportsFold
      simp only [List.foldl_cons]
      by_cases hn : n = "default"
      · rw [if_pos hn]
        exact ih acc name h
      · rw [if_neg hn]
        by_cases hname : n = name
        · subst hname
          exact ih _ n (by rw [alookup_aset_self])
        · exact ih _ name (by rw [alookup_aset_ne _ _ _ _ hname]; exact h)

theorem ownExportsFold_mem (mid : String) :
    ∀ (E : List String) (acc : List (String × String)) (name : String),
      name ∈ E → name ≠ "default" →
      alookup (ownExportsFold mid E acc) name = some mid := by
  intro E
  induction E with
  | nil => intro acc name h; cases h
  | cons n rest ih =>
      intro acc name hmem hdef
      unfold ownExportsFold
      simp only [List.foldl_cons]
      by_cases hin : name ∈ rest
      · by_cases hn : n = "default"
        · rw [if_pos hn]; exact ih acc name hin hdef
        · rw [if_neg hn]; exact ih _ name hin hdef
      · have hname : name = n := by
          rcases List.mem_cons.mp hmem with h1 | h1
          · exact h1
          · exact absurd h1 hin
        subst hname
        rw [if_neg hdef]
        exact ownExportsFold_preserve_mid mid rest _ name (by rw [alookup_aset_self])

/-- Per-name copy loop (lines 381-387): existing warnings survive; existing
`exportsAll` mappings are never overwritten; a name already present when its
copy is attempted produces the `NAMESPACE_CONFLICT` warning; a name not yet
present gets copied. -/
theorem copyExportNames_spec (serial : Nat) (mId depId : String) :
    ∀ (names : List (String × String)) (s s' : LoaderState) (u : Unit),
      copyExportNames serial mId depId names s = .ok (u, s') →
      (∀ w ∈ s.warnings, w ∈ s'.warnings) ∧
      (∀ name v m, s.heap[serial]? = some (.internal m) →
        alookup m.exportsAll name = some v →
        ∃ m', s'.heap[serial]? = some (.internal m') ∧
          alookup m'.exportsAll name = some v) ∧
      (∀ name t m, s.heap[serial]? = some (.internal m) → (name, t) ∈ names →
        (alookup m.exportsAll name).isSome →
        Warning.mk .namespaceConflict [name, mId, depId] ∈ s'.warnings) ∧
      (∀ name t m, s.heap[serial]? = some (.internal m) → (name, t) ∈ names →
        alookup m.exportsAll name = none →
        ∃ m', s'.heap[serial]? = some (.internal m') ∧
          (alookup m'.exportsAll name).isSome) := by
  intro names
  induction names with
  | nil =>
      intro s s' u h
      simp only [copyExportNames, LoaderM.pure_apply] at h
      cases h
      exact ⟨fun w hw => hw,
        fun name v m hm hv => ⟨m, hm, hv⟩,
        fun name t m _ hmem => absurd hmem (List.not_mem_nil _),
        fun name t m _ hmem => absurd hmem (List.not_mem_nil _)⟩
  | cons p rest ih =>
      obtain ⟨n, tgt⟩ := p
      intro s s' u h
      unfold copyExportNames at h
      simp only [LoaderM.bind_apply] at h
      cases hm0 : s.heap[serial]? with
      | none =>
          rw [show getInternalM serial s = Except.error ⟨ErrCode.typeError, []⟩ from by
            unfold getInternalM; rw [hm0]] at h
          cases h
      | some r =>
          cases r with
          | external e =>
              rw [show getInternalM serial s = Except.error ⟨ErrCode.typeError, []⟩ from by
                unfold getInternalM; rw [hm0]] at h
              cases h
          | internal m =>
              rw [getInternalM_eq hm0] at h
              simp only [] at h
              by_cases hp : (alookup m.exportsAll n).isSome = true
              · rw [if_pos hp] at h
                simp only [warn, modifyS_apply] at h
                rcases ih _ s' u h with ⟨hw, hpres, hconf, hcopy⟩
                have hgrow : ∀ w ∈ s.warnings, w ∈ s'.warnings := by
                  intro w hwmem
                  exact hw w (by simp [hwmem])
                refine ⟨hgrow,
                  fun name v m2 hm2 hv => hpres name v m2 (hm0.trans hm2) hv,
                  fun name t m2 hm2 hmem hsome => ?_,
                  fun name t m2 hm2 hmem hnone => ?_⟩
                · rcases List.mem_cons.mp hmem with h1 | h1
                  · have hn2 : name = n := congrArg Prod.fst h1
                    subst hn2
                    exact hw _ (by simp)
                  · exact hconf name t m2 (hm0.trans hm2) h1 hsome
                · rcases List.mem_cons.mp hmem with h1 | h1
                  · have hn2 : name = n := congrArg Prod.fst h1
                    subst hn2
                    have hm2m : m2 = m := by
                      injection hm2 with h3
                      injection h3 with h4
                      exact h4.symm
                    subst hm2m
                    rw [hnone] at hp
                    simp at hp
                  · exact hcopy name t m2 (hm0.trans hm2) h1 hnone
              · rw [if_neg hp] at h
                cases hu : updInternal serial
                    (fun m2 => { m2 with exportsAll := aset m2.exportsAll n tgt }) s with
                | error e => rw [hu] at h; cases h
                | ok q =>
                    obtain ⟨u1, s1⟩ := q
                    rw [hu] at h
                    rcases updInternal_char hu with ⟨m1, hm1, hs1⟩
                    have hm1m : m1 = m := by
                      rw [hm0] at hm1
                      injection hm1 with h3
                      injection h3 with h4
                      exact h4.symm
                    rw [hm1m] at hs1
                    subst hs1
                    rcases ih _ s' u h with ⟨hw, hpres, hconf, hcopy⟩
                    have hset := getElem?_set_of_getElem? s.heap serial (.internal m)
                      (.internal { m with exportsAll := aset m.exportsAll n tgt }) hm0
                    have hmeq : ∀ m2 : Module,
                        (some (ModuleRecord.internal m) : Option ModuleRecord) =
                          some (.internal m2) → m2 = m := by
                      intro m2 hm2
                      injection hm2 with h3
                      injection h3 with h4
                      exact h4.symm
                    refine ⟨fun w hwmem => hw w hwmem,
                      fun name v m2 hm2 hv => ?_,
                      fun name t m2 hm2 hmem hsome => ?_,
                      fun name t m2 hm2 hmem hnone => ?_⟩
                    · rw [hmeq m2 hm2] at hv
                      have hne : n ≠ name := by
                        intro he
                        subst he
                        rw [hv] at hp
                        simp at hp
                      refine hpres name v _ hset ?_
                      show alookup (aset m.exportsAll n tgt) name = some v
                      rw [alookup_aset_ne _ _ _ _ hne]
                      exact hv
                    · rw [hmeq m2 hm2] at hsome
                      have hnn : n ≠ name := by
                        intro he
                        subst he
                        rcases Option.isSome_iff_exists.mp hsome with ⟨v, hv⟩
                        rw [hv] at hp
                        simp at hp
                      rcases List.mem_cons.mp hmem with h1 | h1
                      · have hn2 : name = n := congrArg Prod.fst h1
                        exact absurd hn2.symm hnn
                      · refine hconf name t _ hset h1 ?_
                        show (alookup (aset m.exportsAll n tgt) name).isSome = true
                        rw [alookup_aset_ne _ _ _ _ hnn]
                        exact hsome
                    · rw [hmeq m2 hm2] at hnone
                      by_cases hne : n = name
                      · subst hne
                        have hstep : alookup
                            (aset m.exportsAll n tgt) n = some tgt :=
                          alookup_aset_self _ _ _
                        rcases hpres n tgt _ hset hstep with ⟨m3, hm3, hv3⟩
                        exact ⟨m3, hm3, by rw [hv3]; rfl⟩
                      · rcases List.mem_cons.mp hmem with h1 | h1
                        · have hn2 : name = n := congrArg Prod.fst h1
                          exact absurd hn2.symm hne
                        · refine hcopy name t _ hset h1 ?_
                          show alookup (aset m.exportsAll n tgt) name = none
                          rw [alookup_aset_ne _ _ _ _ hne]
                          exact hnone

theorem updInternal_eq {k : Nat} {f : Module → Module} {s : LoaderState} {m : Module}
    (hm : s.heap[k]? = some (.internal m)) :
    updInternal k f s = .ok ((), { s with heap := s.heap.set k (.internal (f m)) }) := by
  unfold updInternal
  simp only [LoaderM.bind_apply]
  rw [show getInternalM k s = .ok (m, s) from getInternalM_eq hm]
  simp only [setRecord, modifyS_apply]

theorem linkOwnExports_eq {serial : Nat} {s : LoaderState} {m : Module}
    (hm : s.heap[serial]? = some (.internal m)) :
    ∃ s1 : LoaderState, linkOwnExports serial s = .ok ((), s1) ∧
      s1.heap[serial]? = some (.internal
        { m with exportsAll := ownExportsFold m.id m.exports m.exportsAll }) := by
  refine ⟨{ s with heap := s.heap.set serial (.internal
      { m with exportsAll := ownExportsFold m.id m.exports m.exportsAll }) }, ?_, ?_⟩
  · unfold linkOwnExports
    exact updInternal_eq hm
  · exact getElem?_set_of_getElem? s.heap serial _ _ hm

/-- One `export *` link step preserves earlier warnings and never removes or
overwrites an existing `exportsAll` mapping of the linking module. -/
theorem linkOneExportSource_preserves (serial : Nat) (source : String)
    (s s' : LoaderState) (u : Unit)
    (h : linkOneExportSource serial source s = .ok (u, s')) :
    (∀ w ∈ s.warnings, w ∈ s'.warnings) ∧
    (∀ name v m, s.heap[serial]? = some (.internal m) →
      alookup m.exportsAll name = some v →
      ∃ m', s'.heap[serial]? = some (.internal m') ∧
        alookup m'.exportsAll name = some v) := by
  unfold linkOneExportSource at h
  simp only [LoaderM.bind_apply] at h
  cases hm0 : s.heap[serial]? with
  | none =>
      rw [show getInternalM serial s = Except.error ⟨ErrCode.typeError, []⟩ from by
        unfold getInternalM; rw [hm0]] at h
      cases h
  | some r =>
      cases r with
      | external e =>
          rw [show getInternalM serial s = Except.error ⟨ErrCode.typeError, []⟩ from by
            unfold getInternalM; rw [hm0]] at h
          cases h
      | internal m =>
          rw [getInternalM_eq hm0] at h
          simp only [] at h
          cases hrid : alookup m.resolvedIds source with
          | none =>
              rw [hrid] at h
              simp only [throwE_apply] at h
              cases h
          | some rid =>
              rw [hrid] at h
              simp only [LoaderM.bind_apply, getS_apply] at h
              cases hdep : alookup s.modulesById rid.id with
              | none =>
                  rw [hdep] at h
                  simp only [throwE_apply] at h
                  cases h
              | some depSerial =>
                  rw [hdep] at h
                  simp only [] at h
                  cases hd : s.heap[depSerial]? with
                  | none =>
                      rw [hd] at h
                      simp only [throwE_apply] at h
                      cases h
                  | some dr =>
                      rw [hd] at h
                      cases dr with
                      | external e =>
                          simp only [LoaderM.pure_apply] at h
                          cases h
                          refine ⟨fun w hw => hw, fun name v m2 hm2 hv => ?_⟩
                          have hm2m : m2 = m := by
                            injection hm2 with h3
                            injection h3 with h4
                            exact h4.symm
                          subst hm2m
                          exact ⟨m2, hm0, hv⟩
                      | internal dep =>
                          simp only [] at h
                          rcases copyExportNames_spec serial m.id dep.id dep.exportsAll
                            s s' u h with ⟨hw, hp, _, _⟩
                          exact ⟨hw, fun name v m2 hm2 hv =>
                            hp name v m2 (hm0.trans hm2) hv⟩

/-- The fold over the `export *` sources preserves earlier warnings and
existing `exportsAll` mappings of the linking module. -/
theorem linkExportSources_preserves (serial : Nat) :
    ∀ (sources : List String) (s s' : LoaderState) (u : Unit),
      linkExportSources serial sources s = .ok (u, s') →
      (∀ w ∈ s.warnings, w ∈ s'.warnings) ∧
      (∀ name v m, s.heap[serial]? = some (.internal m) →
        alookup m.exportsAll name = some v →
        ∃ m', s'.heap[serial]? = some (.internal m') ∧
          alookup m'.exportsAll name = some v) := by
  intro sources
  induction sources with
  | nil =>
      intro s s' u h
      simp only [linkExportSources, LoaderM.pure_apply] at h
      cases h
      exact ⟨fun w hw => hw, fun name v m hm hv => ⟨m, hm, hv⟩⟩
  | cons source rest ih =>
      intro s s' u h
      unfold linkExportSources at h
      simp only [LoaderM.bind_apply] at h
      cases hL : linkOneExportSource serial source s with
      | error e => rw [hL] at h; cases h
      | ok q =>
          obtain ⟨u1, s1⟩ := q
          rw [hL] at h
          simp only [] at h
          rcases linkOneExportSource_preserves serial source s s1 u1 hL with ⟨hw1, hp1⟩
          rcases ih s1 s' u h with ⟨hw2, hp2⟩
          refine ⟨fun w hw => hw2 w (hw1 w hw), fun name v m hm hv => ?_⟩
          rcases hp1 name v m hm hv with ⟨m1, hm1, hv1⟩
          exact hp2 name v m1 hm1 hv1

/-- C6: after linking (lines 372-388), an internal module maps each of its own
declared exports except `"default"` to its own id in `exportsAll`, and that
mapping survives the copy phase; for an `export *` source that resolved to an
internal dependency, each name already present in the module's `exportsAll`
produces a non-fatal `NAMESPACE_CONFLICT` warning while the existing mapping
is kept, and each absent name is copied; an `export *` source that resolved to
an `ExternalModule` is skipped without touching the state. -/
theorem export_linking_spec :
    (∀ (serial : Nat) (s s' : LoaderState) (u : Unit) (m : Module) (name : String),
      s.heap[serial]? = some (.internal m) →
      linkModuleExports serial s = .ok (u, s') →
      name ∈ m.exports → name ≠ "default" →
      ∃ m', s'.heap[serial]? = some (.internal m') ∧
        alookup m'.exportsAll name = some m.id) ∧
    (∀ (serial : Nat) (source : String) (s s' : LoaderState) (u : Unit)
        (m : Module) (rid : ResolvedId) (depSerial : Nat) (dep : Module),
      s.heap[serial]? = some (.internal m) →
      alookup m.resolvedIds source = some rid →
      alookup s.modulesById rid.id = some depSerial →
      s.heap[depSerial]? = some (.internal dep) →
      linkOneExportSource serial source s = .ok (u, s') →
      (∀ name t, (name, t) ∈ dep.exportsAll →
        (alookup m.exportsAll name).isSome →
        Warning.mk .namespaceConflict [name, m.id, dep.id] ∈ s'.warnings) ∧
      (∀ name v, alookup m.exportsAll name = some v →
        ∃ m', s'.heap[serial]? = some (.internal m') ∧
          alookup m'.exportsAll name = some v) ∧
      (∀ name t, (name, t) ∈ dep.exportsAll →
        alookup m.exportsAll name = none →
        ∃ m', s'.heap[serial]? = some (.internal m') ∧
          (alookup m'.exportsAll name).isSome)) ∧
    (∀ (serial : Nat) (source : String) (s : LoaderState)
        (m : Module) (rid : ResolvedId) (depSerial : Nat) (e : ExternalModule),
      s.heap[serial]? = some (.internal m) →
      alookup m.resolvedIds source = some rid →
      alookup s.modulesById rid.id = some depSerial →
      s.heap[depSerial]? = some (.external e) →
      linkOneExportSource serial source s = .ok ((), s)) := by
  refine ⟨?_, ?_, ?_⟩
  · intro serial s s' u m name hm h hmem hdef
    unfold linkModuleExports at h
    simp only [LoaderM.bind_apply] at h
    rcases linkOwnExports_eq hm with ⟨s1, hL, hm1⟩
    rw [hL] at h
    simp only [] at h
    rw [getInternalM_eq hm1] at h
    simp only [] at h
    exact (linkExportSources_preserves serial _ s1 s' u h).2 name m.id _ hm1
      (ownExportsFold_mem m.id m.exports m.exportsAll name hmem hdef)
  · intro serial source s s' u m rid depSerial dep hm hrid hdep hd h
    unfold linkOneExportSource at h
    simp only [LoaderM.bind_apply] at h
    rw [getInternalM_eq hm] at h
    simp only [] at h
    rw [hrid] at h
    simp only [LoaderM.bind_apply, getS_apply] at h
    rw [hdep] at h
    simp only [] at h
    rw [hd] at h
    simp only [] at h
    rcases copyExportNames_spec serial m.id dep.id dep.exportsAll s s' u h with
      ⟨hw, hp, hconf, hcopy⟩
    exact ⟨fun name t hmem hsome => hconf name t m hm hmem hsome,
      fun name v hv => hp name v m hm hv,
      fun name t hmem hnone => hcopy name t m hm hmem hnone⟩
  · intro serial source s m rid depSerial e hm hrid hdep hd
    unfold linkOneExportSource
    simp only [LoaderM.bind_apply, getInternalM_eq hm]
    simp only [hrid]
    simp only [LoaderM.bind_apply, getS_apply]
    simp only [hdep]
    simp only [hd]
    simp only [LoaderM.pure_apply]

/-- Concrete run of the linker: `Y` keeps `foo ↦ Y` with a
`NAMESPACE_CONFLICT` warning, copies `bar`, and skips an external source. -/
theorem export_linking_spec_witness :
    (∃ m', c6Run.heap[0]? = some (ModuleRecord.internal m') ∧
      alookup m'.exportsAll "foo" = some "Y") ∧
    Warning.mk .namespaceConflict ["foo", "Y", "X"] ∈ c6Run1.warnings ∧
    (∃ m', c6Run1.heap[0]? = some (ModuleRecord.internal m') ∧
      alookup m'.exportsAll "foo" = some "Y") ∧
    (∃ m', c6Run1.heap[0]? = some (ModuleRecord.internal m') ∧
      (alookup m'.exportsAll "bar").isSome = true) ∧
    linkOneExportSource 0 "E" c6ExtState = .ok ((), c6ExtState) := by
  refine ⟨?_, ?_, ?_, ?_, ?_⟩
  · exact export_linking_spec.1 0 c6State c6Run () c6Y "foo" (by rfl) (by rfl)
      (by decide) (by decide)
  · exact (export_linking_spec.2.1 0 "X" c6State1 c6Run1 () c6Y1
      ⟨false, "X", true, false⟩ 1 c6X (by rfl) (by rfl) (by rfl) (by rfl)
      (by rfl)).1 "foo" "X" (by decide) (by decide)
  · exact (export_linking_spec.2.1 0 "X" c6State1 c6Run1 () c6Y1
      ⟨false, "X", true, false⟩ 1 c6X (by rfl) (by rfl) (by rfl) (by rfl)
      (by rfl)).2.1 "foo" "Y" (by rfl)
  · exact (export_linking_spec.2.1 0 "X" c6State1 c6Run1 () c6Y1
      ⟨false, "X", true, false⟩ 1 c6X (by rfl) (by rfl) (by rfl) (by rfl)
      (by rfl)).2.2 "bar" "X" (by decide) (by rfl)
  · exact export_linking_spec.2.2 0 "E" c6ExtState c6YE ⟨true, "E", true, false⟩
      1 ⟨"E", true, [], []⟩ (by rfl) (by rfl) (by rfl) (by rfl)

/-- C8 (amended): re-assigning a module to the chunk alias it already carries
raises no error and keeps the alias, but it is not a state no-op —
`addModuleToManualChunk` (lines 284-293) pushes the module onto
`manualChunkModules[alias]` unconditionally after the alias check, so the
list stored under the alias gains a duplicate entry and the map differs from
its previous value. -/
theorem manual_chunk_reassign_duplicates (a : String) (serial : Nat)
    (s : LoaderState) (m : Module) (l : List Nat)
    (hm : s.heap[serial]? = some (.internal m))
    (ha : m.manualChunkAlias = some a)
    (hl : alookup s.manualChunkModules a = some l)
    (hmem : serial ∈ l) :
    ∃ s', addModuleToManualChunk a serial s = .ok ((), s') ∧
      (∃ m', s'.heap[serial]? = some (.internal m') ∧
        m'.manualChunkAlias = some a) ∧
      alookup s'.manualChunkModules a = some (l ++ [serial]) ∧
      ¬ (l ++ [serial]).Nodup ∧
      s'.manualChunkModules ≠ s.manualChunkModules := by
  refine ⟨{ s with
      heap := s.heap.set serial (.internal { m with manualChunkAlias := some a })
      manualChunkModules := aset s.manualChunkModules a
        ((alookup s.manualChunkModules a).getD [] ++ [serial]) }, ?_, ?_, ?_, ?_, ?_⟩
  · simp [addModuleToManualChunk, getInternalM, hm, ha, Bind.bind, LoaderM.bind,
      assignChunk, updInternal, setRecord, modifyS, Pure.pure, LoaderM.pure]
  · exact ⟨_, getElem?_set_of_getElem? s.heap serial _ _ hm, rfl⟩
  · show alookup (aset s.manualChunkModules a
        ((alookup s.manualChunkModules a).getD [] ++ [serial])) a = some (l ++ [serial])
    rw [alookup_aset_self, hl]
    rfl
  · intro hnd
    rcases List.nodup_append.mp hnd with ⟨_, _, hdisj⟩
    exact hdisj hmem (by simp)
  · intro he
    have h1 : alookup (aset s.manualChunkModules a
        ((alookup s.manualChunkModules a).getD [] ++ [serial])) a = some (l ++ [serial]) := by
      rw [alookup_aset_self, hl]
      rfl
    rw [show aset s.manualChunkModules a
        ((alookup s.manualChunkModules a).getD [] ++ [serial]) = s.manualChunkModules
      from he] at h1
    rw [hl] at h1
    have h2 : l = l ++ [serial] := by injection h1
    have h3 := congrArg List.length h2
    simp at h3

/-- Concrete instance of `manual_chunk_reassign_duplicates`: re-assigning the
one-module state to chunk `"a"` again duplicates its entry in
`manualChunkModules["a"]`. -/
theorem manual_chunk_reassign_duplicates_witness :
    ∃ s', addModuleToManualChunk "a" 0 chunkTestState2 = .ok ((), s') ∧
      (∃ m', s'.heap[0]? = some (ModuleRecord.internal m') ∧
        m'.manualChunkAlias = some "a") ∧
      alookup s'.manualChunkModules "a" = some [0, 0] ∧
      ¬ ([0, 0] : List Nat).Nodup ∧
      s'.manualChunkModules ≠ chunkTestState2.manualChunkModules :=
  manual_chunk_reassign_duplicates "a" 0 chunkTestState2 chunkTestModule [0]
    (by rfl) (by rfl) (by rfl) (by decide)

theorem fetchModuleRest_value {cfg : LoaderConfig} {env : Env}
    {fetchM : String → Option String → Bool → Bool → Bool → LoaderM Nat}
    {id : String} {imp : Option String} {k : Nat} {s : LoaderState} {a : Nat}
    {s' : LoaderState}
    (h : fetchModuleRest cfg env fetchM id imp k s = .ok (a, s')) : a = k := by
  unfold fetchModuleRest at h
  simp only [LoaderM.bind_apply] at h
  cases h1 : addModuleSource env id imp k s with
  | error e => rw [h1] at h; simp only [] at h; cases h
  | ok p =>
      obtain ⟨u1, s1⟩ := p
      rw [h1] at h
      simp only [] at h
      cases h2 : fetchAllDependenciesF cfg env fetchM k s1 with
      | error e => rw [h2] at h; simp only [] at h; cases h
      | ok p2 =>
          obtain ⟨u2, s2⟩ := p2
          rw [h2] at h
          simp only [] at h
          cases h3 : linkModuleExports k s2 with
          | error e => rw [h3] at h; simp only [] at h; cases h
          | ok p3 =>
              obtain ⟨u3, s3⟩ := p3
              rw [h3] at h
              simp only [LoaderM.pure_apply] at h
              cases h
              rfl

/-- A successful `fetchModule` leaves the registry mapping its id to the
returned reference, behind which an internal module lives. -/
theorem fetchModule_registers (cfg : LoaderConfig) (env : Env) :
    ∀ (fuel : Nat) (id : String) (imp : Option String) (mse syn ie : Bool)
      (s : LoaderState) (r : Nat) (s' : LoaderState),
      fetchModule cfg env fuel id imp mse syn ie s = .ok (r, s') →
      ∃ m, lookupInternal s' id = some (r, m) := by
  intro fuel
  cases fuel with
  | zero =>
      intro id imp mse syn ie s r s' h
      have h0 : (Except.error ⟨ErrCode.outOfFuel, []⟩ :
          Except Err (Nat × LoaderState)) = .ok (r, s') := h
      cases h0
  | succ n =>
      intro id imp mse syn ie s r s' h
      have h' : fetchModuleGo cfg env (fetchModule cfg env n) id imp mse syn ie s =
          .ok (r, s') := h
      unfold fetchModuleGo at h'
      cases hL : lookupInternal s id with
      | some p =>
          obtain ⟨ser, m⟩ := p
          rw [hL] at h'
          have h2 : (Except.ok (ser,
              { s with heap := s.heap.set ser (.internal { m with isEntryPoint := m.isEntryPoint || ie }) }) :
              Except Err (Nat × LoaderState)) = .ok (r, s') := h'
          injection h2 with h3
          injection h3 with h4 h5
          subst h4
          subst h5
          have hsm := lookupInternal_some_inv hL
          refine ⟨{ m with isEntryPoint := m.isEntryPoint || ie },
            lookupInternal_eq hsm.1 ?_⟩
          exact getElem?_set_of_getElem? s.heap ser _ _ hsm.2
      | none =>
          rw [hL] at h'
          have hv := fetchModuleRest_value h'
          subst hv
          rcases fetchModuleRest_walk cfg env (fetchModule cfg env n)
              (walk_fetchModule cfg env n) id imp s.heap.length _ s.heap.length s' h'
            with ⟨hext, _⟩
          have hmap : alookup
              (registeredState s id mse syn ie).modulesById id = some s.heap.length :=
            alookup_aset_self _ _ _
          have hint : internalAtH
              (registeredState s id mse syn ie).heap s.heap.length = true := by
            unfold registeredState internalAtH
            simp [List.getElem?_concat_length]
          have hmap' := hext.internalMap id s.heap.length hmap hint
          rcases internalAtH_iff.mp (hext.internalKept s.heap.length hint) with ⟨m', hm'⟩
          exact ⟨m', lookupInternal_eq hmap' hm'⟩

/-- If the registry already holds an internal module under `id`, every
successful `fetchModule` returns exactly that reference and only flips its
`isEntryPoint` flag. -/
theorem fetchModule_hit {cfg : LoaderConfig} {env : Env} {fuel : Nat}
    {id : String} {imp : Option String} {mse syn ie : Bool}
    {s : LoaderState} {ser : Nat} {m : Module} {r : Nat} {s' : LoaderState}
    (hL : lookupInternal s id = some (ser, m))
    (h : fetchModule cfg env fuel id imp mse syn ie s = .ok (r, s')) :
    r = ser ∧
    s' = { s with
      heap := s.heap.set ser (.internal { m with isEntryPoint := m.isEntryPoint || ie }) } := by
  cases fuel with
  | zero =>
      have h0 : (Except.error ⟨ErrCode.outOfFuel, []⟩ :
          Except Err (Nat × LoaderState)) = .ok (r, s') := h
      cases h0
  | succ n =>
      have h' : fetchModuleGo cfg env (fetchModule cfg env n) id imp mse syn ie s =
          .ok (r, s') := h
      unfold fetchModuleGo at h'
      rw [hL] at h'
      have h2 : (Except.ok (ser,
          { s with heap := s.heap.set ser (.internal { m with isEntryPoint := m.isEntryPoint || ie }) }) :
          Except Err (Nat × LoaderState)) = .ok (r, s') := h'
      injection h2 with h3
      injection h3 with h4 h5
      exact ⟨h4.symm, h5.symm⟩

theorem lookupInternal_pair_of_regExt {s s' : LoaderState} (h : RegExt s s')
    {id : String} {ser : Nat} {m : Module}
    (hL : lookupInternal s id = some (ser, m)) :
    ∃ m', lookupInternal s' id = some (ser, m') := by
  rcases lookupInternal_some_inv hL with ⟨hmap, hheap⟩
  have hint : internalAtH s.heap ser = true := internalAtH_iff.mpr ⟨m, hheap⟩
  have hmap' := h.internalMap id ser hmap hint
  rcases internalAtH_iff.mp (h.internalKept ser hint) with ⟨m', hm'⟩
  exact ⟨m', lookupInternal_eq hmap' hm'⟩

theorem loadEntryModule_inv {cfg : LoaderConfig} {env : Env} {fuel : Nat}
    {uid : String} {ie : Bool} {imp : Option String} {s : LoaderState}
    {ser : Nat} {s' : LoaderState}
    (h : loadEntryModule cfg env fuel uid ie imp s = .ok (ser, s')) :
    ∃ eid, resolveEntryId uid (env.utilResolveId uid imp cfg.preserveSymlinks none) =
        .ok eid ∧
      fetchModule cfg env fuel eid none true false ie s = .ok (ser, s') := by
  unfold loadEntryModule at h
  cases hr : resolveEntryId uid (env.utilResolveId uid imp cfg.preserveSymlinks none) with
  | error e => rw [hr] at h; cases h
  | ok eid =>
      rw [hr] at h
      exact ⟨eid, rfl, h⟩

theorem loadEntries_cons_inv {cfg : LoaderConfig} {env : Env} {fuel : Nat}
    {u : UnresolvedModule} {rest : List UnresolvedModule} {s : LoaderState}
    {a : List Nat} {s' : LoaderState}
    (h : loadEntries cfg env fuel (u :: rest) s = .ok (a, s')) :
    ∃ ser s1 more,
      loadEntryModule cfg env fuel u.id true u.importer s = .ok (ser, s1) ∧
      loadEntries cfg env fuel rest s1 = .ok (more, s') ∧ a = ser :: more := by
  unfold loadEntries at h
  simp only [LoaderM.bind_apply] at h
  cases h1 : loadEntryModule cfg env fuel u.id true u.importer s with
  | error e => rw [h1] at h; cases h
  | ok p =>
      obtain ⟨ser, s1⟩ := p
      rw [h1] at h
      simp only [] at h
      cases h2 : loadEntries cfg env fuel rest s1 with
      | error e => rw [h2] at h; cases h
      | ok p2 =>
          obtain ⟨more, s2⟩ := p2
          rw [h2] at h
          simp only [LoaderM.pure_apply] at h
          cases h
          exact ⟨ser, s1, more, rfl, h2, rfl⟩

theorem loadEntries_nil_inv {cfg : LoaderConfig} {env : Env} {fuel : Nat}
    {s : LoaderState} {a : List Nat} {s' : LoaderState}
    (h : loadEntries cfg env fuel [] s = .ok (a, s')) : a = [] ∧ s' = s := by
  simp only [loadEntries, LoaderM.pure_apply] at h
  cases h
  exact ⟨rfl, rfl⟩

theorem indexEntries_cons_inv {isUD : Bool} {u : UnresolvedModule} {ser : Nat}
    {rest : List (UnresolvedModule × Nat)} {i : Nat} {s : LoaderState}
    {x : Unit} {s' : LoaderState}
    (h : indexEntries isUD ((u, ser) :: rest) i s = .ok (x, s')) :
    ∃ sD eid, applyEntryNaming u isUD ser s = .ok ((), sD) ∧
      recIdAt sD.heap ser = some eid ∧
      indexEntries isUD rest (i + 1)
        { sD with indexedEntryModules :=
            updateIndexed sD.heap eid ser i sD.indexedEntryModules } = .ok (x, s') := by
  unfold indexEntries at h
  simp only [LoaderM.bind_apply, getS_apply] at h
  cases h1 : applyEntryNaming u isUD ser s with
  | error e => rw [h1] at h; cases h
  | ok p =>
      obtain ⟨u1, sD⟩ := p
      obtain ⟨⟩ := u1
      rw [h1] at h
      simp only [LoaderM.bind_apply, getS_apply] at h
      cases h2 : recIdAt sD.heap ser with
      | none =>
          rw [h2] at h
          simp only [throwE_apply] at h
          cases h
      | some eid =>
          rw [h2] at h
          simp only [modifyS_apply] at h
          exact ⟨sD, eid, rfl, h2, h⟩

theorem indexEntries_nil_inv {isUD : Bool} {i : Nat} {s : LoaderState}
    {x : Unit} {s' : LoaderState}
    (h : indexEntries isUD [] i s = .ok (x, s')) : s' = s := by
  simp only [indexEntries, LoaderM.pure_apply] at h
  cases h
  rfl

theorem updateIndexed_found {heap : List ModuleRecord} {eid : String}
    {ser0 : Nat} (ser i j : Nat) (rest : List (Nat × Nat))
    (hrec : recIdAt heap ser0 = some eid) :
    updateIndexed heap eid ser i ((j, ser0) :: rest) = (Nat.min j i, ser0) :: rest := by
  unfold updateIndexed
  rw [if_pos hrec]

/-- Decomposition of a successful `addEntryModules` run into its phases:
the index-range reservation, the loads, the index bookkeeping and the final
sort. -/
theorem addEntryModules_inv {cfg : LoaderConfig} {env : Env} {fuel : Nat}
    {us : List UnresolvedModule} {isUD : Bool} {s : LoaderState}
    {r : EntryModulesResult} {s' : LoaderState}
    (h : addEntryModules cfg env fuel us isUD s = .ok (r, s')) :
    ∃ (serials : List Nat) (sA sB : LoaderState),
      loadEntries cfg env fuel us
        { s with nextEntryModuleIndex := s.nextEntryModuleIndex + us.length } =
        .ok (serials, sA) ∧
      indexEntries isUD (us.zip serials) s.nextEntryModuleIndex sA = .ok ((), sB) ∧
      s' = { sB with indexedEntryModules := sortIndexed sB.indexedEntryModules } ∧
      r = { entryModules := (sortIndexed sB.indexedEntryModules).map (fun p => p.2)
            manualChunkModulesByAlias := sB.manualChunkModules
            newEntryModules := serials } := by
  unfold addEntryModules at h
  simp only [LoaderM.bind_apply, getS_apply, modifyS_apply, LoaderM.pure_apply] at h
  cases hL : loadEntries cfg env fuel us
      { s with nextEntryModuleIndex := s.nextEntryModuleIndex + us.length } with
  | error e => rw [hL] at h; cases h
  | ok p =>
      obtain ⟨serials, sA⟩ := p
      rw [hL] at h
      simp only [] at h
      cases hI : indexEntries isUD (us.zip serials) s.nextEntryModuleIndex sA with
      | error e => rw [hI] at h; cases h
      | ok q =>
          obtain ⟨u1, sB⟩ := q
          obtain ⟨⟩ := u1
          rw [hI] at h
          simp only [] at h
          cases h
          exact ⟨serials, sA, sB, rfl, hI, rfl, rfl⟩

/-- C5: entry bookkeeping of `addEntryModules` (lines 133-184).
(i) After every successful batch the indexed entry list is sorted by
ascending index.  (ii) Submitting the same entry in two consecutive
singleton batches (from a state with no indexed entries) returns the same
module instance both times, the entry appears in the indexed entry list
exactly once, and its stored index is the minimum of the two reserved
indices — the index reserved by the first batch.  (iii) Submitting the same
entry twice within one batch likewise returns the same instance twice,
indexes it once, and stores the minimum of the two reserved indices. -/
theorem addEntryModules_entry_unique_min_sorted :
    (∀ (cfg : LoaderConfig) (env : Env) (fuel : Nat) (us : List UnresolvedModule)
        (isUD : Bool) (s : LoaderState) (r : EntryModulesResult) (s' : LoaderState),
      addEntryModules cfg env fuel us isUD s = .ok (r, s') →
      s'.indexedEntryModules.Sorted (fun a b : Nat × Nat => a.1 ≤ b.1)) ∧
    (∀ (cfg : LoaderConfig) (env : Env) (fuel1 fuel2 : Nat) (u : UnresolvedModule)
        (isUD1 isUD2 : Bool) (s0 : LoaderState) (r1 : EntryModulesResult)
        (s1 : LoaderState) (r2 : EntryModulesResult) (s2 : LoaderState),
      s0.indexedEntryModules = [] →
      addEntryModules cfg env fuel1 [u] isUD1 s0 = .ok (r1, s1) →
      addEntryModules cfg env fuel2 [u] isUD2 s1 = .ok (r2, s2) →
      ∃ ser,
        r1.newEntryModules = [ser] ∧ r2.newEntryModules = [ser] ∧
        r1.entryModules = [ser] ∧ r2.entryModules = [ser] ∧
        s1.nextEntryModuleIndex = s0.nextEntryModuleIndex + 1 ∧
        s1.indexedEntryModules = [(s0.nextEntryModuleIndex, ser)] ∧
        s2.indexedEntryModules =
          [(Nat.min s0.nextEntryModuleIndex s1.nextEntryModuleIndex, ser)] ∧
        s2.indexedEntryModules = [(s0.nextEntryModuleIndex, ser)]) ∧
    (∀ (cfg : LoaderConfig) (env : Env) (fuel : Nat) (u : UnresolvedModule)
        (isUD : Bool) (s0 : LoaderState) (r : EntryModulesResult) (s' : LoaderState),
      s0.indexedEntryModules = [] →
      addEntryModules cfg env fuel [u, u] isUD s0 = .ok (r, s') →
      ∃ ser, r.newEntryModules = [ser, ser] ∧
        s'.indexedEntryModules = [(s0.nextEntryModuleIndex, ser)] ∧
        r.entryModules = [ser]) := by
  refine ⟨?_, ?_, ?_⟩
  · intro cfg env fuel us isUD s r s' h
    rcases addEntryModules_inv h with ⟨serials, sA, sB, _, _, hs', _⟩
    rw [hs']
    show (sortIndexed sB.indexedEntryModules).Sorted (fun a b : Nat × Nat => a.1 ≤ b.1)
    exact List.sorted_insertionSort _ _
  · intro cfg env fuel1 fuel2 u isUD1 isUD2 s0 r1 s1 r2 s2 hzero h1 h2
    rcases addEntryModules_inv h1 with ⟨serials1, sA1, sB1, hL1, hI1, hs1, hr1⟩
    rcases loadEntries_cons_inv hL1 with ⟨ser, sM, more, hLoad1, hRest1, hser1⟩
    rcases loadEntries_nil_inv hRest1 with ⟨hmore, hsM⟩
    subst hmore
    subst hser1
    subst hsM
    rcases indexEntries_cons_inv hI1 with ⟨sD1, eid1, happly1, hrec1, hIrest1⟩
    have hsB1 := indexEntries_nil_inv hIrest1
    have hEA1 : sA1.indexedEntryModules = [] := by
      rw [(walk_loadEntryModule cfg env fuel1 u.id true u.importer _ ser sA1
        hLoad1).1.entriesEq]
      exact hzero
    have hED1 : sD1.indexedEntryModules = [] := by
      rw [(walk_applyEntryNaming u isUD1 ser sA1 () sD1 happly1).1.entriesEq]
      exact hEA1
    have hE1 : s1.indexedEntryModules = [(s0.nextEntryModuleIndex, ser)] := by
      rw [hs1, hsB1, hED1]
      rfl
    have hNext1 : s1.nextEntryModuleIndex = s0.nextEntryModuleIndex + 1 := by
      rw [hs1, hsB1]
      show sD1.nextEntryModuleIndex = s0.nextEntryModuleIndex + 1
      rw [(walk_applyEntryNaming u isUD1 ser sA1 () sD1 happly1).1.nextIndexEq,
        (walk_loadEntryModule cfg env fuel1 u.id true u.importer _ ser sA1
          hLoad1).1.nextIndexEq]
      rfl
    rcases loadEntryModule_inv hLoad1 with ⟨eid, hres1, hfetch1⟩
    rcases fetchModule_registers cfg env fuel1 eid none true false true _ ser sA1
      hfetch1 with ⟨mA, hLA⟩
    have hRA : RegExt sA1 sD1 :=
      (walk_applyEntryNaming u isUD1 ser sA1 () sD1 happly1).1.toRegExt
    have hRB : RegExt sD1 sB1 := by
      rw [hsB1]
      exact regExt_of_eq rfl rfl
    have hRC : RegExt sB1 s1 := by
      rw [hs1]
      exact regExt_of_eq rfl rfl
    have hR1 : RegExt sA1 s1 := regExt_trans (regExt_trans hRA hRB) hRC
    rcases lookupInternal_pair_of_regExt hR1 hLA with ⟨mB, hLB⟩
    rcases addEntryModules_inv h2 with ⟨serials2, sA2, sB2, hL2, hI2, hs2, hr2⟩
    rcases loadEntries_cons_inv hL2 with ⟨ser2, sM2, more2, hLoad2, hRest2, hser2⟩
    rcases loadEntries_nil_inv hRest2 with ⟨hmore2, hsM2⟩
    subst hmore2
    subst hser2
    subst hsM2
    rcases loadEntryModule_inv hLoad2 with ⟨eid2, hres2, hfetch2⟩
    have heid : eid = eid2 := by
      injection hres1.symm.trans hres2
    subst heid
    have hLB2 : lookupInternal
        { s1 with nextEntryModuleIndex := s1.nextEntryModuleIndex + [u].length } eid =
        some (ser, mB) := hLB
    rcases fetchModule_hit hLB2 hfetch2 with ⟨hser2eq, hsA2⟩
    subst hser2eq
    rcases indexEntries_cons_inv hI2 with ⟨sD2, eidx, happly2, hrec2, hIrest2⟩
    have hsB2 := indexEntries_nil_inv hIrest2
    have hEA2 : sA2.indexedEntryModules = [(s0.nextEntryModuleIndex, ser2)] := by
      rw [hsA2]
      exact hE1
    have hED2 : sD2.indexedEntryModules = [(s0.nextEntryModuleIndex, ser2)] := by
      rw [(walk_applyEntryNaming u isUD2 ser2 sA2 () sD2 happly2).1.entriesEq]
      exact hEA2
    have hupd : updateIndexed sD2.heap eidx ser2 s1.nextEntryModuleIndex
        sD2.indexedEntryModules =
        [(Nat.min s0.nextEntryModuleIndex s1.nextEntryModuleIndex, ser2)] := by
      rw [hED2]
      exact updateIndexed_found ser2 s1.nextEntryModuleIndex s0.nextEntryModuleIndex
        [] hrec2
    have hmin : Nat.min s0.nextEntryModuleIndex s1.nextEntryModuleIndex =
        s0.nextEntryModuleIndex := by
      rw [hNext1]
      exact Nat.min_eq_left (Nat.le_succ _)
    have hE2 : s2.indexedEntryModules =
        [(Nat.min s0.nextEntryModuleIndex s1.nextEntryModuleIndex, ser2)] := by
      rw [hs2, hsB2, hupd]
      rfl
    refine ⟨ser2, ?_, ?_, ?_, ?_, hNext1, hE1, hE2, ?_⟩
    · rw [hr1]
    · rw [hr2]
    · rw [hr1, hsB1, hED1]
      rfl
    · rw [hr2, hsB2, hupd]
      rfl
    · rw [hE2, hmin]
  · intro cfg env fuel u isUD s0 r s' hzero h
    rcases addEntryModules_inv h with ⟨serials, sA, sB, hL, hI, hs', hr⟩
    rcases loadEntries_cons_inv hL with ⟨ser, s1, more, hLoad1, hRest1, hser⟩
    rcases loadEntries_cons_inv hRest1 with ⟨ser2, s2m, more2, hLoad2, hRest2, hser2⟩
    rcases loadEntries_nil_inv hRest2 with ⟨hmore2, hs2m⟩
    subst hmore2
    subst hser2
    subst hser
    subst hs2m
    rcases loadEntryModule_inv hLoad1 with ⟨eid, hres1, hfetch1⟩
    rcases loadEntryModule_inv hLoad2 with ⟨eid2, hres2, hfetch2⟩
    have heid : eid = eid2 := by
      injection hres1.symm.trans hres2
    subst heid
    rcases fetchModule_registers cfg env fuel eid none true false true _ ser s1
      hfetch1 with ⟨mA, hLA⟩
    rcases fetchModule_hit hLA hfetch2 with ⟨hsereq, hsA⟩
    subst hsereq
    subst hsA
    rcases indexEntries_cons_inv hI with ⟨sD1, eid1, happ1, hrec1, hIrest⟩
    rcases indexEntries_cons_inv hIrest with ⟨sD2, eidx, happ2, hrec2, hIrest2⟩
    have hsB := indexEntries_nil_inv hIrest2
    have hE1 : s1.indexedEntryModules = [] := by
      rw [(walk_loadEntryModule cfg env fuel u.id true u.importer _ ser2 s1
        hLoad1).1.entriesEq]
      exact hzero
    have hED1 : sD1.indexedEntryModules = [] := by
      rw [(walk_applyEntryNaming u isUD ser2 _ () sD1 happ1).1.entriesEq]
      exact hE1
    have hmid : updateIndexed sD1.heap eid1 ser2 s0.nextEntryModuleIndex
        sD1.indexedEntryModules = [(s0.nextEntryModuleIndex, ser2)] := by
      rw [hED1]
      rfl
    have hED2 : sD2.indexedEntryModules = [(s0.nextEntryModuleIndex, ser2)] := by
      rw [(walk_applyEntryNaming u isUD ser2 _ () sD2 happ2).1.entriesEq]
      exact hmid
    have hupd2 : updateIndexed sD2.heap eidx ser2 (s0.nextEntryModuleIndex + 1)
        sD2.indexedEntryModules =
        [(Nat.min s0.nextEntryModuleIndex (s0.nextEntryModuleIndex + 1), ser2)] := by
      rw [hED2]
      exact updateIndexed_found ser2 (s0.nextEntryModuleIndex + 1)
        s0.nextEntryModuleIndex [] hrec2
    have hmin : Nat.min s0.nextEntryModuleIndex (s0.nextEntryModuleIndex + 1) =
        s0.nextEntryModuleIndex := Nat.min_eq_left (Nat.le_succ _)
    refine ⟨ser2, ?_, ?_, ?_⟩
    · rw [hr]
    · rw [hs', hsB, hupd2, hmin]
      rfl
    · rw [hr, hsB, hupd2]
      rfl

/-- Concrete instance of `addEntryModules_entry_unique_min_sorted`: the entry
`"/e"` submitted twice across batches and twice within one batch. -/
theorem addEntryModules_entry_unique_min_sorted_witness :
    c5S2.indexedEntryModules.Sorted (fun a b : Nat × Nat => a.1 ≤ b.1) ∧
    (∃ ser,
      c5R1.newEntryModules = [ser] ∧ c5R2.newEntryModules = [ser] ∧
      c5R1.entryModules = [ser] ∧ c5R2.entryModules = [ser] ∧
      c5S1.nextEntryModuleIndex = initState.nextEntryModuleIndex + 1 ∧
      c5S1.indexedEntryModules = [(initState.nextEntryModuleIndex, ser)] ∧
      c5S2.indexedEntryModules =
        [(Nat.min initState.nextEntryModuleIndex c5S1.nextEntryModuleIndex, ser)] ∧
      c5S2.indexedEntryModules = [(initState.nextEntryModuleIndex, ser)]) ∧
    (∃ ser, c5RB.newEntryModules = [ser, ser] ∧
      c5SB.indexedEntryModules = [(initState.nextEntryModuleIndex, ser)] ∧
      c5RB.entryModules = [ser]) := by
  refine ⟨?_, ?_, ?_⟩
  · exact addEntryModules_entry_unique_min_sorted.1 cfgNone envSelf 1 [c5U] true
      c5S1 c5R2 c5S2 (by rfl)
  · exact addEntryModules_entry_unique_min_sorted.2.1 cfgNone envSelf 1 1 c5U
      true true initState c5R1 c5S1 c5R2 c5S2 (by rfl) (by rfl) (by rfl)
  · exact addEntryModules_entry_unique_min_sorted.2.2 cfgNone envSelf 1 c5U true
      initState c5RB c5SB (by rfl) (by rfl)

end ML
